import Mathlib

/-!
Physika: uniform Cartesian grid, fixed-size vectors, array iterator, sparse
matrix and particle driver

A shallow embedding of `Physika_Geometry/Cartesian_Grid/grid.cpp`, of the
parts of `Physika_Core/Vectors/vector_3d.cpp` that the grid uses, and of
`Physika_Core/Arrays/array_Nd_iterator-inl.h`.  The sparse matrix (of which
only `Projects/TESTS/sparse_matrix_correctness_test.cpp` is among the sources)
and the particle functions of `Physika_Dynamics/MPM/mpm_solid.h` (declarations
only) are modelled from the specification; such definitions say so.

Conventions of the embedding

* `Scalar` is `ℚ`: the arithmetic of the template parameter `Scalar`
  (`float` / `double` in the explicit instantiations) is taken exact.  The
  quotient of a scalar by zero, which the C++ code computes without failing
  (an IEEE infinity or NaN), is Lean's total division on `ℚ`: the value the
  model holds there stands for no scalar, and no statement below depends on
  it.
* `int` is `ℤ`; the sum of two `int` is stored through `int_wrap`, the 32-bit
  two's complement wrap-around; the index of the array iterator, whose
  declaration is not among the sources, is read either as such an `int` or as
  a 32-bit `unsigned int` with arithmetic modulo `2^32` (`IndexType`).
* A function that can hit a failing `PHYSIKA_ASSERT` or `std::exit` returns
  `Option`; `none` is the fatal termination of the process.
* `Vector<T,Dim>` is a record holding `data_ : Fin Dim → T`.  The index
  assertion of `operator[]` (`idx>=0 && idx<dims()`) is discharged by the
  type `Fin Dim`: every loop of the embedded code indexes with `0 <= i < Dim`.
-/

namespace Physika

/-- The template parameter `Scalar`, with exact arithmetic. -/
abbrev Scalar := ℚ

/-- `std::numeric_limits<float>::epsilon()`, that is `2^-23`. -/
def epsilon_float : Scalar := 1 / 2 ^ 23

/-- `std::numeric_limits<double>::epsilon()`, that is `2^-52`. -/
def epsilon_double : Scalar := 1 / 2 ^ 52

/-- `FLT_MAX` of `<cfloat>`: the largest finite `float`, `(2^24 - 1) * 2^104`. -/
def FLT_MAX : Scalar := (2 ^ 24 - 1) * 2 ^ 104

/-- `FLT_MIN` of `<cfloat>`: the smallest positive normalised `float`, `2^-126`. -/
def FLT_MIN : Scalar := 1 / 2 ^ 126

/-- `INT_MAX` of `<climits>`: the largest `int`, `2^31 - 1`. -/
def INT_MAX : ℤ := 2 ^ 31 - 1

/-- `INT_MIN` of `<climits>`: the smallest `int`, `-2^31`. -/
def INT_MIN : ℤ := -2 ^ 31

/-- The value a 32-bit `int` holds after the arithmetic result `z` is stored in
it: `z` itself when `INT_MIN <= z <= INT_MAX`, and the two's complement
wrap-around otherwise (signed overflow, which the C++ standard leaves
undefined and the hardware wraps). -/
def int_wrap (z : ℤ) : ℤ :=
  (z + 2 ^ 31) % 2 ^ 32 - 2 ^ 31

/-- Modelled from the spec: the macro `PHYSIKA_ASSERT` of
`Physika_Core/Utilities/physika_assert.h` is not among the sources; a violated
assertion is a fatal, unrecoverable precondition failure (`none`), a satisfied
one has no effect. -/
def PHYSIKA_ASSERT (cond : Bool) : Option Unit :=
  if cond then some () else none

/-- `Vector<T,Dim>`: `data_[Dim]` of the built-in representation.  The source
file holds the specialisation `Dim = 3`; its loops `for(int i = 0; i < 3; ++i)`
run over the template dimension, which is how the other dimension (2, whose
file is not among the sources) is read here. -/
@[ext]
structure Vector (T : Type) (Dim : Nat) where
  data_ : Fin Dim → T

instance instDecidableEqVector {T : Type} {Dim : Nat} [DecidableEq T] :
    DecidableEq (Vector T Dim) := fun a b =>
  decidable_of_iff (a.data_ = b.data_) ⟨fun h => Vector.ext h, fun h => h ▸ rfl⟩

namespace Vector

variable {T : Type} {Dim : Nat}

/-- `Vector(Scalar x)`: every component is `x`. -/
def fill (x : T) : Vector T Dim :=
  ⟨fun _ => x⟩

/-- `operator+`: `result[i] = (*this)[i] + vec3[i]`. -/
def add [Add T] (self vec3 : Vector T Dim) : Vector T Dim :=
  ⟨fun i => self.data_ i + vec3.data_ i⟩

/-- `operator+` of `Vector<int,Dim>`: `result[i] = (*this)[i] + vec3[i]`, each
sum stored in an `int`. -/
def add_int (self vec3 : Vector ℤ Dim) : Vector ℤ Dim :=
  ⟨fun i => int_wrap (self.data_ i + vec3.data_ i)⟩

/-- `operator-` (binary): `result[i] = (*this)[i] - vec3[i]`. -/
def sub [Sub T] (self vec3 : Vector T Dim) : Vector T Dim :=
  ⟨fun i => self.data_ i - vec3.data_ i⟩

/-- `operator*`: `result[i] = (*this)[i] * scale`. -/
def mul [Mul T] (self : Vector T Dim) (scale : T) : Vector T Dim :=
  ⟨fun i => self.data_ i * scale⟩

/-- `operator/`: asserts `fabs(scale) > std::numeric_limits<Scalar>::epsilon()`
(the epsilon of the instantiated scalar type is the parameter `eps`), then
`result[i] = (*this)[i] / scale`. -/
def div (eps : Scalar) (self : Vector Scalar Dim) (scale : Scalar) :
    Option (Vector Scalar Dim) := do
  PHYSIKA_ASSERT (decide (|scale| > eps))
  pure ⟨fun i => self.data_ i / scale⟩

end Vector

/-- Modelled from the spec: `Range<Scalar,Dim>`
(`Physika_Core/Range/range.h`) is not among the sources.  The grid reads its
domain range through `minCorner()`, `maxCorner()` and `edgeLengths()`; the
range is the axis-aligned box between its two corners. -/
structure Range (Dim : Nat) where
  min_corner_ : Vector Scalar Dim
  max_corner_ : Vector Scalar Dim

namespace Range

variable {Dim : Nat}

/-- Modelled from the spec: `Range::minCorner()`. -/
def minCorner (r : Range Dim) : Vector Scalar Dim := r.min_corner_

/-- Modelled from the spec: `Range::maxCorner()`. -/
def maxCorner (r : Range Dim) : Vector Scalar Dim := r.max_corner_

/-- Modelled from the spec: `Range::edgeLengths()`, the per-axis edge length
of the domain, `max_corner_ - min_corner_`. -/
def edgeLengths (r : Range Dim) : Vector Scalar Dim :=
  r.max_corner_.sub r.min_corner_

end Range

/-- The data members of `GridBase<Scalar,Dim>`. -/
structure GridBase (Dim : Nat) where
  domain_ : Range Dim
  dx_ : Vector Scalar Dim
  cell_num_ : Vector ℤ Dim

namespace GridBase

variable {Dim : Nat}

/-- `GridBase(const Range<Scalar,Dim> &domain, int cell_num)`:
```
PHYSIKA_ASSERT(cell_num>=0);
cell_num_ = Vector<int,Dim>(cell_num);
dx_ = domain_.edgeLengths()/cell_num;
```
The quotient is `Vector<Scalar,Dim>::operator/`, with its own assertion. -/
def GridBase_int (eps : Scalar) (domain : Range Dim) (cell_num : ℤ) :
    Option (GridBase Dim) := do
  PHYSIKA_ASSERT (decide (cell_num ≥ 0))
  let cell_num_ : Vector ℤ Dim := Vector.fill cell_num
  let dx_ ← domain.edgeLengths.div eps (cell_num : Scalar)
  pure ⟨domain, dx_, cell_num_⟩

/-- `GridBase(const Range<Scalar,Dim> &domain, const Vector<int,Dim> &cell_num)`:
```
for(int i = 0; i < Dim; ++i) PHYSIKA_ASSERT(cell_num[i]>=0);
cell_num_ = cell_num;
Vector<Scalar,Dim> domain_size = domain_.edgeLengths();
for(int i = 0; i < Dim; ++i) dx_[i] = domain_size[i]/cell_num_[i];
```
The quotient is the division of two scalars, which asserts nothing.  On an
axis whose count is zero (accepted by the assertion) the code stores an
infinity or a NaN in `dx_[i]`; the model has no such scalar and holds Lean's
`x / 0` there, a value that stands for nothing. -/
def GridBase_vec (domain : Range Dim) (cell_num : Vector ℤ Dim) :
    Option (GridBase Dim) := do
  (List.finRange Dim).forM (fun i => PHYSIKA_ASSERT (decide (cell_num.data_ i ≥ 0)))
  let cell_num_ := cell_num
  let domain_size := domain.edgeLengths
  let dx_ : Vector Scalar Dim := ⟨fun i => domain_size.data_ i / (cell_num_.data_ i : Scalar)⟩
  pure ⟨domain, dx_, cell_num_⟩

/-- `domain()`. -/
def domain (g : GridBase Dim) : Range Dim := g.domain_

/-- `dX()`. -/
def dX (g : GridBase Dim) : Vector Scalar Dim := g.dx_

/-- `minCorner()`. -/
def minCorner (g : GridBase Dim) : Vector Scalar Dim := g.domain_.minCorner

/-- `maxCorner()`. -/
def maxCorner (g : GridBase Dim) : Vector Scalar Dim := g.domain_.maxCorner

/-- `minEdgeLength()`:
```
Scalar min_length = FLT_MAX;
for(int i = 0; i < Dim; ++i) if(dx_[i]<min_length) min_length = dx_[i];
return min_length;
``` -/
def minEdgeLength (g : GridBase Dim) : Scalar :=
  (List.finRange Dim).foldl
    (fun min_length i => if g.dx_.data_ i < min_length then g.dx_.data_ i else min_length)
    FLT_MAX

/-- `maxEdgeLength()`:
```
Scalar max_length = FLT_MIN;
for(int i = 0; i < Dim; ++i) if(dx_[i]>max_length) max_length = dx_[i];
return max_length;
``` -/
def maxEdgeLength (g : GridBase Dim) : Scalar :=
  (List.finRange Dim).foldl
    (fun max_length i => if g.dx_.data_ i > max_length then g.dx_.data_ i else max_length)
    FLT_MIN

/-- `cellNum()`. -/
def cellNum (g : GridBase Dim) : Vector ℤ Dim := g.cell_num_

/-- `nodeNum()`: `cell_num_+Vector<int,Dim>(1)`, a sum of `int` vectors. -/
def nodeNum (g : GridBase Dim) : Vector ℤ Dim := g.cell_num_.add_int (Vector.fill 1)

/-- `cellSize()`:
```
Scalar size = 1.0;
for(int i = 0; i < Dim; ++i) size *= dx_[i];
return size;
``` -/
def cellSize (g : GridBase Dim) : Scalar :=
  (List.finRange Dim).foldl (fun size i => size * g.dx_.data_ i) 1

/-- `node(const Vector<int,Dim> &index)`:
```
for(int i = 0; i < Dim; ++i)
{ PHYSIKA_ASSERT(index[i]>=0); PHYSIKA_ASSERT(index[i]<=cell_num_[i]); }
Vector<Scalar,Dim> bias;
for(int i = 0; i < Dim; ++i) bias[i] = index[i]*dx_[i];
return domain_.minCorner()+bias;
``` -/
def node (g : GridBase Dim) (index : Vector ℤ Dim) : Option (Vector Scalar Dim) := do
  (List.finRange Dim).forM (fun i => do
    PHYSIKA_ASSERT (decide (index.data_ i ≥ 0))
    PHYSIKA_ASSERT (decide (index.data_ i ≤ g.cell_num_.data_ i)))
  let bias : Vector Scalar Dim := ⟨fun i => (index.data_ i : Scalar) * g.dx_.data_ i⟩
  pure (g.domain_.minCorner.add bias)

/-- `cellCenter(const Vector<int,Dim> &index)`:
```
for(int i = 0; i < Dim; ++i)
{ PHYSIKA_ASSERT(index[i]>=0); PHYSIKA_ASSERT(index[i]<cell_num_[i]); }
Vector<Scalar,Dim> cor_node = node(index);
return cor_node+0.5*dx_;
```
`0.5*dx_` is the scalar-on-the-left product of the vector header, the vector
scaled by one half. -/
def cellCenter (g : GridBase Dim) (index : Vector ℤ Dim) : Option (Vector Scalar Dim) := do
  (List.finRange Dim).forM (fun i => do
    PHYSIKA_ASSERT (decide (index.data_ i ≥ 0))
    PHYSIKA_ASSERT (decide (index.data_ i < g.cell_num_.data_ i)))
  let cor_node ← g.node index
  pure (cor_node.add (g.dx_.mul (1 / 2)))

end GridBase

/-- The unit square `[0,1] x [0,1]`, a 2D domain. -/
def unitSquare : Range 2 := ⟨Vector.fill 0, Vector.fill 1⟩

/-- The unit cube `[0,1]^3`, a 3D domain. -/
def unitCube : Range 3 := ⟨Vector.fill 0, Vector.fill 1⟩

/-- A 2D domain of edge length `2^-130`, below `FLT_MIN`. -/
def tinySquare : Range 2 := ⟨Vector.fill 0, Vector.fill (1 / 2 ^ 130)⟩

/-- A 2D domain of edge length `2^130`, above `FLT_MAX`. -/
def hugeSquare : Range 2 := ⟨Vector.fill 0, Vector.fill (2 ^ 130)⟩

/-- The grid of 10 x 10 cells over the unit square, with `dx_ = (1/10, 1/10)`. -/
def grid10 : GridBase 2 := ⟨unitSquare, Vector.fill (1 / 10), Vector.fill 10⟩

/-- The grid of 10 x 5 cells over the unit square, with `dx_ = (1/10, 1/5)`. -/
def grid10x5 : GridBase 2 := ⟨unitSquare, ⟨![1 / 10, 1 / 5]⟩, ⟨![10, 5]⟩⟩

/-- Modelled from the spec: the iterator classes `NodeIterator` and
`CellIterator` of the grid are declared in headers that are not among the
sources.  The grid functions write their two members: `index_`, a multi-index,
and `grid_`, a pointer to the grid the iterator is bound to (`none` for an
iterator bound to no grid). -/
structure GridIterator (Dim : Nat) where
  index_ : Vector ℤ Dim
  grid_ : Option (GridBase Dim)

namespace Grid

variable {Dim : Nat}

/-- The local object `iterator` of `nodeBegin()` when control reaches the
closing brace of the body:
```
Grid<Scalar,2>::NodeIterator iterator;
iterator.index_ = Vector<int,2>(0);
iterator.grid_ = this;
```
(the 3D function differs in the dimension only). -/
def nodeBegin_iterator (g : GridBase Dim) : GridIterator Dim :=
  ⟨Vector.fill 0, some g⟩

/-- The local object `iterator` of `nodeEnd()` at the closing brace:
`iterator.index_ = Vector<int,2>(-1); iterator.grid_ = this;`. -/
def nodeEnd_iterator (g : GridBase Dim) : GridIterator Dim :=
  ⟨Vector.fill (-1), some g⟩

/-- The local object `iterator` of `cellBegin()` at the closing brace:
`iterator.index_ = Vector<int,2>(0); iterator.grid_ = this;`. -/
def cellBegin_iterator (g : GridBase Dim) : GridIterator Dim :=
  ⟨Vector.fill 0, some g⟩

/-- The local object `iterator` of `cellEnd()` at the closing brace:
`iterator.index_ = Vector<int,2>(-1); iterator.grid_ = this;`. -/
def cellEnd_iterator (g : GridBase Dim) : GridIterator Dim :=
  ⟨Vector.fill (-1), some g⟩

/-- `Grid<Scalar,2>::nodeBegin()` and `Grid<Scalar,3>::nodeBegin()`.  The body
builds the local `iterator` and ends there: it has no `return` statement, so
control flows off the end of a function that returns an object, and the caller
receives no defined value.  The result is `none`: nothing is returned. -/
def nodeBegin (g : GridBase Dim) : Option (GridIterator Dim) :=
  let _iterator := nodeBegin_iterator g
  none

/-- `nodeEnd()`: builds the local `iterator`, and has no `return` statement. -/
def nodeEnd (g : GridBase Dim) : Option (GridIterator Dim) :=
  let _iterator := nodeEnd_iterator g
  none

/-- `cellBegin()`: builds the local `iterator`, and has no `return` statement. -/
def cellBegin (g : GridBase Dim) : Option (GridIterator Dim) :=
  let _iterator := cellBegin_iterator g
  none

/-- `cellEnd()`: builds the local `iterator`, and has no `return` statement. -/
def cellEnd (g : GridBase Dim) : Option (GridIterator Dim) :=
  let _iterator := cellEnd_iterator g
  none

/-- Advancing `n` times the iterator delivered by a call (`it`, when the call
delivered one).  The increment operator of the grid iterators is not among the
sources; it is the parameter `advance`, which may fail. -/
def advanceTimes (advance : GridIterator Dim → Option (GridIterator Dim)) :
    Nat → Option (GridIterator Dim) → Option (GridIterator Dim)
  | 0, it => it
  | n + 1, it => advanceTimes advance n (it.bind advance)

end Grid

/-- Modelled from the spec: `ArrayND<ElementType,Dim>`
(`Physika_Core/Arrays/array_Nd.h`) is not among the sources.  The iterator
reads two things of the array it is bound to: the flat storage `data_` and
`totalElementCount()`, the number of stored elements.  `address` is the
identity of the array object, which is what two pointers to arrays compare. -/
structure ArrayND (ElementType : Type) where
  address : Nat
  data_ : List ElementType

/-- Modelled from the spec: `ArrayND::totalElementCount()`, the number of
elements of the flat storage. -/
def ArrayND.totalElementCount {ElementType : Type} (a : ArrayND ElementType) : ℤ :=
  a.data_.length

/-- Modelled from the spec: the integer type of the member `element_idx_` of
the iterator and of `totalElementCount()`, declared in headers that are not
among the sources.  Both readings are kept: `signed_int` (an `int`, taken
without overflow) and `unsigned_int` (32-bit, arithmetic modulo `2^32`, also
in the comparison of the dereference).  The counts that the sources do declare
are `unsigned int` (`VectorBase::dims()`, `MPMSolid::particleNum()`), and a
comparison of an `int` with an `unsigned int` is made on `unsigned int`: the
dereference compares as `unsigned_int` as soon as `totalElementCount()` is
such a count, whichever type the operators store the index in. -/
inductive IndexType where
  | signed_int
  | unsigned_int
  deriving DecidableEq

/-- The value held by an index of the given integer type after an arithmetic
result `z` is stored in it. -/
def IndexType.store : IndexType → ℤ → ℤ
  | IndexType.signed_int, z => z
  | IndexType.unsigned_int, z => z % 2 ^ 32

/-- The data members of `ArrayNDIterator<ElementType,Dim>`: the pointer
`array_` (`none` is `NULL`) and `element_idx_`. -/
structure ArrayNDIterator (ElementType : Type) where
  array_ : Option (ArrayND ElementType)
  element_idx_ : ℤ

/-- What a dereference of an iterator does: it yields an element, or it ends
the process (`std::exit(EXIT_FAILURE)`), or it reads `data_` outside its
bounds. -/
inductive Dereference (ElementType : Type) where
  | element (e : ElementType)
  | exit_failure
  | out_of_bounds

/-- What a call of a postfix operator of the iterator amounts to: the
termination of the process (`std::exit(EXIT_FAILURE)`), the pair of the
returned copy and the iterator after the call, or nothing at all because the
body of the operator is ill-formed and cannot be instantiated. -/
inductive Postfix (ElementType : Type) where
  | ill_formed
  | exit_failure
  | returned (copy self_after : ArrayNDIterator ElementType)

namespace ArrayNDIterator

variable {ElementType : Type}

/-- `ArrayNDIterator()`: `array_(NULL), element_idx_(0)`. -/
def default_constructed : ArrayNDIterator ElementType :=
  ⟨none, 0⟩

/-- The comparison `array_ == iterator.array_` of two pointers that are not
`NULL`: the same array object. -/
def same_array (a b : ArrayND ElementType) : Bool :=
  decide (a.address = b.address)

/-- `operator==`:
```
if((array_==NULL)||(iterator.array_==NULL)) { ...; std::exit(EXIT_FAILURE); }
return (element_idx_ == iterator.element_idx_)&&(array_ == iterator.array_);
``` -/
def eq (self iterator : ArrayNDIterator ElementType) : Option Bool :=
  match self.array_, iterator.array_ with
  | some a, some b => some (decide (self.element_idx_ = iterator.element_idx_) && same_array a b)
  | _, _ => none

/-- `operator!=`:
```
if((array_==NULL)||(iterator.array_==NULL)) { ...; std::exit(EXIT_FAILURE); }
return (element_idx_ != iterator.element_idx_)||(array_ != iterator.array_);
``` -/
def ne (self iterator : ArrayNDIterator ElementType) : Option Bool :=
  match self.array_, iterator.array_ with
  | some a, some b =>
    some (decide (self.element_idx_ ≠ iterator.element_idx_) || !same_array a b)
  | _, _ => none

/-- `operator++ ()`: exits when `array_==NULL`, else `++element_idx_; return *this;`. -/
def preIncrement (k : IndexType) (self : ArrayNDIterator ElementType) :
    Option (ArrayNDIterator ElementType) :=
  match self.array_ with
  | none => none
  | some _ => some { self with element_idx_ := k.store (self.element_idx_ + 1) }

/-- `operator-- ()`: exits when `array_==NULL`, else `--element_idx_; return *this;`. -/
def preDecrement (k : IndexType) (self : ArrayNDIterator ElementType) :
    Option (ArrayNDIterator ElementType) :=
  match self.array_ with
  | none => none
  | some _ => some { self with element_idx_ := k.store (self.element_idx_ - 1) }

/-- `operator++ (int)`:
```
if(array_==NULL) { ...; std::exit(EXIT_FAILURE); }
ArrayIterator<ElementType> iterator(*this);
++element_idx_;
return iterator;
```
The local is declared as `ArrayIterator<ElementType>`, the iterator class of the
one-dimensional array, initialised from `*this` (an `ArrayNDIterator`) and
returned as an `ArrayNDIterator`.  The body is ill-formed, the function cannot
be instantiated, and no call of it runs, on a bound or on an unbound
iterator. -/
def postIncrement (_k : IndexType) (_self : ArrayNDIterator ElementType) :
    Postfix ElementType :=
  Postfix.ill_formed

/-- `operator-- (int)`: as `operator++ (int)`, with `--element_idx_`; the same
declaration `ArrayIterator<ElementType> iterator(*this);` makes the body
ill-formed. -/
def postDecrement (_k : IndexType) (_self : ArrayNDIterator ElementType) :
    Postfix ElementType :=
  Postfix.ill_formed

/-- `operator+ (int stride)`: exits when `array_==NULL`, else returns a copy
with `element_idx_ += stride`. -/
def plus (k : IndexType) (self : ArrayNDIterator ElementType) (stride : ℤ) :
    Option (ArrayNDIterator ElementType) :=
  match self.array_ with
  | none => none
  | some _ => some { self with element_idx_ := k.store (self.element_idx_ + stride) }

/-- `operator- (int stride)`: exits when `array_==NULL`, else returns a copy
with `element_idx_ -= stride`. -/
def minus (k : IndexType) (self : ArrayNDIterator ElementType) (stride : ℤ) :
    Option (ArrayNDIterator ElementType) :=
  match self.array_ with
  | none => none
  | some _ => some { self with element_idx_ := k.store (self.element_idx_ - stride) }

/-- `operator *()` (both overloads):
```
if(array_==NULL) { ...; std::exit(EXIT_FAILURE); }
if(element_idx_ >= array_->totalElementCount()) { ...; std::exit(EXIT_FAILURE); }
return array_->data_[element_idx_];
```
The only range check is the upper one; an index below zero that passes it
reads `data_` out of bounds. -/
def deref (k : IndexType) (self : ArrayNDIterator ElementType) : Dereference ElementType :=
  match self.array_ with
  | none => Dereference.exit_failure
  | some a =>
    if k.store self.element_idx_ ≥ a.totalElementCount then Dereference.exit_failure
    else if k.store self.element_idx_ < 0 then Dereference.out_of_bounds
    else
      match a.data_[(k.store self.element_idx_).toNat]? with
      | some e => Dereference.element e
      | none => Dereference.out_of_bounds

end ArrayNDIterator

/-- Modelled from the spec: the particle functions of `MPMSolid<Scalar,Dim>`
are declared in `mpm_solid.h` (`particleNum`, `addParticle`, `removeParticle`,
`setParticles`, `particle`) and defined in a file that is not among the
sources.  The driver owns the collection `particles_`; valid indices are the
contiguous range `[0, particleNum())`. -/
structure MPMSolid (Particle : Type) where
  particles_ : List Particle

namespace MPMSolid

variable {Particle : Type}

/-- Modelled from the spec: `particleNum()`, the size of the particle
collection. -/
def particleNum (d : MPMSolid Particle) : Nat :=
  d.particles_.length

/-- Modelled from the spec: `removeParticle(particle_idx)`.  An out-of-range
index is a fatal precondition failure (`none`); otherwise the particle is
removed and the indices above it shift down by one. -/
def removeParticle (d : MPMSolid Particle) (particle_idx : Nat) :
    Option (MPMSolid Particle) := do
  PHYSIKA_ASSERT (decide (particle_idx < d.particleNum))
  pure ⟨d.particles_.eraseIdx particle_idx⟩

/-- Modelled from the spec: `particle(particle_idx)`, the particle at a valid
index; an invalid index is a fatal precondition failure (`none`). -/
def particle (d : MPMSolid Particle) (particle_idx : Nat) : Option Particle := do
  PHYSIKA_ASSERT (decide (particle_idx < d.particleNum))
  d.particles_[particle_idx]?

end MPMSolid

/-- Modelled from the spec: `Trituple<Scalar>`, a stored entry of a sparse
matrix, the triple `(row, col, value)` (the class is declared in a header that
is not among the sources; the test reads `row()`, `col()`, `value()`). -/
structure Trituple where
  row_ : Nat
  col_ : Nat
  value_ : Scalar
  deriving DecidableEq

namespace Trituple

/-- Modelled from the spec: the entry sits at the position `(row, col)`. -/
def isAt (t : Trituple) (row col : Nat) : Bool :=
  decide (t.row_ = row ∧ t.col_ = col)

/-- Modelled from the spec: the entry with rows and columns swapped. -/
def transposed (t : Trituple) : Trituple :=
  ⟨t.col_, t.row_, t.value_⟩

end Trituple

/-- Modelled from the spec: `SparseMatrix<Scalar>`
(`Physika_Core/Matrices/sparse_matrix.h`) is not among the sources; only its
test is.  The shape `rows x cols` is fixed at construction and the backing
storage holds the stored `(row, col, value)` triples.  The functions below do
not require, and keep, the invariant `WellFormed` of the storage. -/
structure SparseMatrix where
  rows_ : Nat
  cols_ : Nat
  elements_ : List Trituple
  deriving DecidableEq

/-- The dense reference matrix of the test (`es1`, `es2`): it is written by
`coeffRef(row, col) = v` and read by `coeff(row, col)`. -/
def Reference := Nat → Nat → Scalar

namespace Reference

/-- The reference matrix after its construction: all zero. -/
def zero : Reference := fun _ _ => 0

/-- `es.coeffRef(row, col) = v`: the last write to a position wins. -/
def coeffRef_assign (B : Reference) (row col : Nat) (v : Scalar) : Reference :=
  fun r c => if r = row ∧ c = col then v else B r c

/-- The dense reference matrix after the writes `coeffRef(row, col) = v` of a
sequence of `(row, col, v)`, in order, on the all-zero matrix. -/
def written (ops : List (Nat × Nat × Scalar)) : Reference :=
  ops.foldl (fun B op => B.coeffRef_assign op.1 op.2.1 op.2.2) zero

end Reference

namespace SparseMatrix

/-- Modelled from the spec: `SparseMatrix(rows, cols, ROW_MAJOR)`, the matrix
of the given shape with no stored entry. -/
def create (rows cols : Nat) : SparseMatrix :=
  ⟨rows, cols, []⟩

/-- Modelled from the spec: `rows()`. -/
def rows (A : SparseMatrix) : Nat := A.rows_

/-- Modelled from the spec: `cols()`. -/
def cols (A : SparseMatrix) : Nat := A.cols_

/-- Modelled from the spec: `nonZeros()`, the number of stored entries. -/
def nonZeros (A : SparseMatrix) : Nat := A.elements_.length

/-- Modelled from the spec: the invariant of the storage.  Every stored entry
is inside the shape and is nonzero, and there is exactly one stored entry per
occupied `(row, col)` pair. -/
def WellFormed (A : SparseMatrix) : Prop :=
  (∀ t ∈ A.elements_, t.row_ < A.rows_ ∧ t.col_ < A.cols_ ∧ t.value_ ≠ 0) ∧
    A.elements_.Pairwise (fun a b => ¬ (a.row_ = b.row_ ∧ a.col_ = b.col_))

/-- Modelled from the spec: the value the storage holds for a position, the
"absence" representation (numeric zero) for a position with no entry. -/
def stored (elements : List Trituple) (row col : Nat) : Scalar :=
  match elements.find? (fun t => t.isAt row col) with
  | some t => t.value_
  | none => 0

/-- Modelled from the spec: element read `operator()` / `coeff`.  An invalid
index is a fatal precondition failure; an unset position reads as zero. -/
def coeff (A : SparseMatrix) (row col : Nat) : Option Scalar := do
  PHYSIKA_ASSERT (decide (row < A.rows_ ∧ col < A.cols_))
  pure (stored A.elements_ row col)

/-- Modelled from the spec: `remove(row, col)` deletes the entry if present;
removing an absent entry is a no-op, not an error.  An invalid index is a
fatal precondition failure. -/
def remove (A : SparseMatrix) (row col : Nat) : Option SparseMatrix := do
  PHYSIKA_ASSERT (decide (row < A.rows_ ∧ col < A.cols_))
  pure { A with elements_ := A.elements_.filter (fun t => !t.isAt row col) }

/-- Modelled from the spec: `setEntry(row, col, value)` inserts or overwrites;
setting a value to exactly the "absence" representation is equivalent to
removal.  An invalid index is a fatal precondition failure. -/
def setEntry (A : SparseMatrix) (row col : Nat) (value : Scalar) : Option SparseMatrix := do
  PHYSIKA_ASSERT (decide (row < A.rows_ ∧ col < A.cols_))
  if value = 0 then
    pure { A with elements_ := A.elements_.filter (fun t => !t.isAt row col) }
  else if A.elements_.any (fun t => t.isAt row col) then
    pure { A with elements_ :=
      A.elements_.map (fun t => if t.isAt row col then ⟨row, col, value⟩ else t) }
  else
    pure { A with elements_ := A.elements_ ++ [⟨row, col, value⟩] }

/-- Modelled from the spec: `transpose()` returns a new matrix with rows and
columns swapped. -/
def transpose (A : SparseMatrix) : SparseMatrix :=
  ⟨A.cols_, A.rows_, A.elements_.map Trituple.transposed⟩

/-- Modelled from the spec: `getRowElements(row)` returns the stored entries
of that row as `(row, col, value)` triples in column order.  An invalid row is
a fatal precondition failure. -/
def getRowElements (A : SparseMatrix) (row : Nat) : Option (List Trituple) := do
  PHYSIKA_ASSERT (decide (row < A.rows_))
  pure ((A.elements_.filter (fun t => decide (t.row_ = row))).insertionSort
    (fun a b => a.col_ ≤ b.col_))

/-- The insertion loop of the test:
```
ps1.setEntry(row, col, v);
es1.coeffRef(row, col) = v;
```
for each `(row, col, v)` of the sequence, on the pair of the sparse matrix and
the reference matrix. -/
def setEntries : List (Nat × Nat × Scalar) → SparseMatrix × Reference →
    Option (SparseMatrix × Reference)
  | [], s => some s
  | (row, col, v) :: ops, (A, B) => do
    let A' ← A.setEntry row col v
    setEntries ops (A', B.coeffRef_assign row col v)

end SparseMatrix

/-- Modelled from the spec: `SparseMatrixIterator<Scalar>`, bound to one line
(here a row) of one matrix and driven by the entries `getRowElements` returns
for it: the entries that remain, the current entry first. -/
structure SparseMatrixIterator where
  remaining_ : List Trituple

namespace SparseMatrixIterator

/-- Modelled from the spec: `SparseMatrixIterator(matrix, line)`, the iterator
at the first stored entry of the line. -/
def create (A : SparseMatrix) (line : Nat) : Option SparseMatrixIterator :=
  (A.getRowElements line).map (fun elements => ⟨elements⟩)

/-- Modelled from the spec: the conversion to `bool`; the iterator is live
while entries remain and inert after the last entry. -/
def live (it : SparseMatrixIterator) : Bool :=
  !it.remaining_.isEmpty

/-- Modelled from the spec: `operator++`, advance to the next stored entry of
the line. -/
def next (it : SparseMatrixIterator) : SparseMatrixIterator :=
  ⟨it.remaining_.tail⟩

/-- Modelled from the spec: `row()` of the current entry (none on an inert
iterator). -/
def row (it : SparseMatrixIterator) : Option Nat :=
  it.remaining_.head?.map (fun t => t.row_)

/-- Modelled from the spec: `col()` of the current entry. -/
def col (it : SparseMatrixIterator) : Option Nat :=
  it.remaining_.head?.map (fun t => t.col_)

/-- Modelled from the spec: `value()` of the current entry. -/
def value (it : SparseMatrixIterator) : Option Scalar :=
  it.remaining_.head?.map (fun t => t.value_)

/-- The iteration loop of the test:
```
for (SparseMatrixIterator<mytype> it(ps2, Max1 / 2); it; ++it)
    iterator_v.push_back(Trituple<mytype>(it.row(), it.col(), it.value()));
```
from the iterator `it` and the vector `iterator_v` collected so far; `fuel`
bounds the number of rounds (`none` when it is used up with the iterator still
live, or when an accessor fails). -/
def collect : Nat → SparseMatrixIterator → List Trituple → Option (List Trituple)
  | 0, it, iterator_v => if it.live then none else some iterator_v
  | fuel + 1, it, iterator_v =>
    if it.live then do
      let row ← it.row
      let col ← it.col
      let value ← it.value
      collect fuel it.next (iterator_v ++ [⟨row, col, value⟩])
    else some iterator_v

end SparseMatrixIterator

/-- A 3 x 4 sparse matrix with four stored entries, two of them in row 1. -/
def sparse3x4 : SparseMatrix :=
  ⟨3, 4, [⟨1, 3, 7⟩, ⟨0, 0, 2⟩, ⟨1, 1, 5⟩, ⟨2, 2, -1⟩]⟩

namespace Vector

variable {T : Type} {Dim : Nat}

/-- `operator==`:
```
for(int i = 0; i < 3; ++i) if((*this)[i] != vec3[i]) return false;
return true;
``` -/
def eq [DecidableEq T] (self vec3 : Vector T Dim) : Bool :=
  (List.finRange Dim).all (fun i => decide (self.data_ i = vec3.data_ i))

/-- `operator/=`: asserts `fabs(scale) > std::numeric_limits<Scalar>::epsilon()`
(the parameter `eps`), then `(*this)[i] = (*this)[i] / scale` and
`return *this`; the result is the vector after the call. -/
def div_assign (eps : Scalar) (self : Vector Scalar Dim) (scale : Scalar) :
    Option (Vector Scalar Dim) := do
  PHYSIKA_ASSERT (decide (|scale| > eps))
  pure ⟨fun i => self.data_ i / scale⟩

/-- `Vector(Scalar x, Scalar y, Scalar z)`: `data_[0]=x; data_[1]=y; data_[2]=z;`. -/
def xyz (x y z : T) : Vector T 3 :=
  ⟨![x, y, z]⟩

/-- `cross`:
```
return Vector<Scalar,3>((*this)[1]*vec3[2] - (*this)[2]*vec3[1],
                        (*this)[2]*vec3[0] - (*this)[0]*vec3[2],
                        (*this)[0]*vec3[1] - (*this)[1]*vec3[0]);
``` -/
def cross [Mul T] [Sub T] (self vec3 : Vector T 3) : Vector T 3 :=
  xyz (self.data_ 1 * vec3.data_ 2 - self.data_ 2 * vec3.data_ 1)
    (self.data_ 2 * vec3.data_ 0 - self.data_ 0 * vec3.data_ 2)
    (self.data_ 0 * vec3.data_ 1 - self.data_ 1 * vec3.data_ 0)

/-- `operator-(void)`:
`return Vector<Scalar,3>(-(*this)[0],-(*this)[1],-(*this)[2]);`. -/
def neg [Neg T] (self : Vector T 3) : Vector T 3 :=
  xyz (-self.data_ 0) (-self.data_ 1) (-self.data_ 2)

/-- `dot`:
`return (*this)[0]*vec3[0] + (*this)[1]*vec3[1] + (*this)[2]*vec3[2];`. -/
def dot [Mul T] [Add T] (self vec3 : Vector T 3) : T :=
  self.data_ 0 * vec3.data_ 0 + self.data_ 1 * vec3.data_ 1 + self.data_ 2 * vec3.data_ 2

end Vector

namespace ArrayNDIterator

variable {ElementType : Type}

/-- The prefix `operator++` applied `n` times in a row, each time to the
iterator the previous application left. -/
def preIncrement_times (k : IndexType) :
    Nat → ArrayNDIterator ElementType → Option (ArrayNDIterator ElementType)
  | 0, self => some self
  | n + 1, self => (self.preIncrement k).bind (preIncrement_times k n)

end ArrayNDIterator

/-- An array of three elements, at address 0. -/
def array3 : ArrayND Nat := ⟨0, [10, 20, 30]⟩

/-! Lemmas on assertions, loops and the vector quotient -/

/-- An assertion passes exactly when its condition holds. -/
theorem PHYSIKA_ASSERT_eq_some (c : Bool) : PHYSIKA_ASSERT c = some () ↔ c = true := by
  cases c <;> simp [PHYSIKA_ASSERT]

/-- An assertion is fatal exactly when its condition is false. -/
theorem PHYSIKA_ASSERT_eq_none (c : Bool) : PHYSIKA_ASSERT c = none ↔ c = false := by
  cases c <;> simp [PHYSIKA_ASSERT]

/-- A loop of assertions terminates the process exactly when one of its
iterations does. -/
theorem forM_eq_none_iff {α : Type} (l : List α) (f : α → Option Unit) :
    l.forM f = none ↔ ∃ a ∈ l, f a = none := by
  induction l with
  | nil => simp [List.forM]
  | cons a l ih =>
    simp only [List.forM, List.mem_cons, exists_eq_or_imp]
    cases h : f a with
    | none => simp
    | some u => simp [ih]

/-- A loop of assertions passes exactly when every iteration passes. -/
theorem forM_eq_some_iff {α : Type} (l : List α) (f : α → Option Unit) :
    l.forM f = some () ↔ ∀ a ∈ l, f a = some () := by
  induction l with
  | nil => simp [List.forM]
  | cons a l ih =>
    simp only [List.forM, List.mem_cons, forall_eq_or_imp]
    cases h : f a with
    | none => simp
    | some u => simp [ih]

/-- The running-maximum loop: the result bounds the start value and every
visited entry, and is the start value or one of the entries. -/
theorem foldl_max_spec {α : Type} (d : α → Scalar) (l : List α) (a : Scalar) :
    a ≤ l.foldl (fun m i => if d i > m then d i else m) a ∧
    (∀ i ∈ l, d i ≤ l.foldl (fun m i => if d i > m then d i else m) a) ∧
    (l.foldl (fun m i => if d i > m then d i else m) a = a ∨
      ∃ i ∈ l, l.foldl (fun m i => if d i > m then d i else m) a = d i) := by
  induction l generalizing a with
  | nil => simp
  | cons x l ih =>
    simp only [List.foldl_cons, List.mem_cons, forall_eq_or_imp, exists_eq_or_imp]
    obtain ⟨h1, h2, h3⟩ := ih (if d x > a then d x else a)
    have ha : a ≤ (if d x > a then d x else a) := by
      split_ifs with h
      · exact le_of_lt h
      · exact le_refl a
    have hx : d x ≤ (if d x > a then d x else a) := by
      split_ifs with h
      · exact le_refl _
      · exact not_lt.1 h
    refine ⟨le_trans ha h1, ⟨le_trans hx h1, h2⟩, ?_⟩
    rcases h3 with h3 | h3
    · rw [h3]
      split_ifs with h
      · exact Or.inr (Or.inl rfl)
      · exact Or.inl rfl
    · exact Or.inr (Or.inr h3)

/-- The running-minimum loop, dually. -/
theorem foldl_min_spec {α : Type} (d : α → Scalar) (l : List α) (a : Scalar) :
    l.foldl (fun m i => if d i < m then d i else m) a ≤ a ∧
    (∀ i ∈ l, l.foldl (fun m i => if d i < m then d i else m) a ≤ d i) ∧
    (l.foldl (fun m i => if d i < m then d i else m) a = a ∨
      ∃ i ∈ l, l.foldl (fun m i => if d i < m then d i else m) a = d i) := by
  induction l generalizing a with
  | nil => simp
  | cons x l ih =>
    simp only [List.foldl_cons, List.mem_cons, forall_eq_or_imp, exists_eq_or_imp]
    obtain ⟨h1, h2, h3⟩ := ih (if d x < a then d x else a)
    have ha : (if d x < a then d x else a) ≤ a := by
      split_ifs with h
      · exact le_of_lt h
      · exact le_refl a
    have hx : (if d x < a then d x else a) ≤ d x := by
      split_ifs with h
      · exact le_refl _
      · exact not_lt.1 h
    refine ⟨le_trans h1 ha, ⟨le_trans h1 hx, h2⟩, ?_⟩
    rcases h3 with h3 | h3
    · rw [h3]
      split_ifs with h
      · exact Or.inr (Or.inl rfl)
      · exact Or.inl rfl
    · exact Or.inr (Or.inr h3)

/-- The vector quotient by a scalar of magnitude above the epsilon. -/
theorem Vector.div_of_gt (eps : Scalar) {Dim : Nat} (v : Vector Scalar Dim) (scale : Scalar)
    (h : eps < |scale|) : v.div eps scale = some ⟨fun i => v.data_ i / scale⟩ := by
  simp [Vector.div, PHYSIKA_ASSERT, h]

/-- The vector quotient by a scalar of magnitude at most the epsilon is fatal. -/
theorem Vector.div_of_le (eps : Scalar) {Dim : Nat} (v : Vector Scalar Dim) (scale : Scalar)
    (h : |scale| ≤ eps) : v.div eps scale = none := by
  simp [Vector.div, PHYSIKA_ASSERT, not_lt.2 h]

namespace GridBase

variable {Dim : Nat}

/-! Lemmas on the grid functions -/

/-- The assertion loop of `node` passes exactly on the valid node indices. -/
theorem node_asserts_pass_iff (g : GridBase Dim) (index : Vector ℤ Dim) :
    (List.finRange Dim).forM (fun i => do
        PHYSIKA_ASSERT (decide (index.data_ i ≥ 0))
        PHYSIKA_ASSERT (decide (index.data_ i ≤ g.cell_num_.data_ i))) = some ()
      ↔ ∀ i, 0 ≤ index.data_ i ∧ index.data_ i ≤ g.cell_num_.data_ i := by
  rw [forM_eq_some_iff]
  constructor
  · intro h i
    have hi := h i (List.mem_finRange i)
    by_cases h0 : 0 ≤ index.data_ i <;> by_cases h1 : index.data_ i ≤ g.cell_num_.data_ i <;>
      simp_all [PHYSIKA_ASSERT]
  · intro h i _
    simp [PHYSIKA_ASSERT, h i]

/-- The assertion loop of `cellCenter` passes exactly on the valid cell indices. -/
theorem cellCenter_asserts_pass_iff (g : GridBase Dim) (index : Vector ℤ Dim) :
    (List.finRange Dim).forM (fun i => do
        PHYSIKA_ASSERT (decide (index.data_ i ≥ 0))
        PHYSIKA_ASSERT (decide (index.data_ i < g.cell_num_.data_ i))) = some ()
      ↔ ∀ i, 0 ≤ index.data_ i ∧ index.data_ i < g.cell_num_.data_ i := by
  rw [forM_eq_some_iff]
  constructor
  · intro h i
    have hi := h i (List.mem_finRange i)
    by_cases h0 : 0 ≤ index.data_ i <;> by_cases h1 : index.data_ i < g.cell_num_.data_ i <;>
      simp_all [PHYSIKA_ASSERT]
  · intro h i _
    simp [PHYSIKA_ASSERT, h i]

/-- The value of `node` on a valid node index. -/
theorem node_of_valid (g : GridBase Dim) (index : Vector ℤ Dim)
    (h : ∀ i, 0 ≤ index.data_ i ∧ index.data_ i ≤ g.cell_num_.data_ i) :
    g.node index = some (g.domain_.minCorner.add
      ⟨fun i => (index.data_ i : Scalar) * g.dx_.data_ i⟩) := by
  have hp := (node_asserts_pass_iff g index).2 h
  simp only [node, hp]
  rfl

/-- The function `node` fails on an index that is not a valid node index. -/
theorem node_of_invalid (g : GridBase Dim) (index : Vector ℤ Dim)
    (h : ¬ ∀ i, 0 ≤ index.data_ i ∧ index.data_ i ≤ g.cell_num_.data_ i) :
    g.node index = none := by
  have hp : (List.finRange Dim).forM (fun i => do
        PHYSIKA_ASSERT (decide (index.data_ i ≥ 0))
        PHYSIKA_ASSERT (decide (index.data_ i ≤ g.cell_num_.data_ i))) = none := by
    cases hc : (List.finRange Dim).forM (fun i => do
        PHYSIKA_ASSERT (decide (index.data_ i ≥ 0))
        PHYSIKA_ASSERT (decide (index.data_ i ≤ g.cell_num_.data_ i))) with
    | none => rfl
    | some u => exact absurd ((node_asserts_pass_iff g index).1 hc) h
  simp only [node, hp]
  rfl

/-- The value of `cellCenter` on a valid cell index. -/
theorem cellCenter_of_valid (g : GridBase Dim) (index : Vector ℤ Dim)
    (h : ∀ i, 0 ≤ index.data_ i ∧ index.data_ i < g.cell_num_.data_ i) :
    g.cellCenter index = some
      ((g.domain_.minCorner.add ⟨fun i => (index.data_ i : Scalar) * g.dx_.data_ i⟩).add
        (g.dx_.mul (1 / 2))) := by
  have hp := (cellCenter_asserts_pass_iff g index).2 h
  have hn := node_of_valid g index (fun i => ⟨(h i).1, le_of_lt (h i).2⟩)
  simp only [cellCenter, hp, hn]
  rfl

/-- The function `cellCenter` fails on an index that is not a valid cell index. -/
theorem cellCenter_of_invalid (g : GridBase Dim) (index : Vector ℤ Dim)
    (h : ¬ ∀ i, 0 ≤ index.data_ i ∧ index.data_ i < g.cell_num_.data_ i) :
    g.cellCenter index = none := by
  have hp : (List.finRange Dim).forM (fun i => do
        PHYSIKA_ASSERT (decide (index.data_ i ≥ 0))
        PHYSIKA_ASSERT (decide (index.data_ i < g.cell_num_.data_ i))) = none := by
    cases hc : (List.finRange Dim).forM (fun i => do
        PHYSIKA_ASSERT (decide (index.data_ i ≥ 0))
        PHYSIKA_ASSERT (decide (index.data_ i < g.cell_num_.data_ i))) with
    | none => rfl
    | some u => exact absurd ((cellCenter_asserts_pass_iff g index).1 hc) h
  simp only [cellCenter, hp]
  rfl

/-- The single-count constructor fails on a negative count. -/
theorem GridBase_int_of_neg (eps : Scalar) (domain : Range Dim) (cell_num : ℤ)
    (h : cell_num < 0) : GridBase_int eps domain cell_num = none := by
  simp [GridBase_int, PHYSIKA_ASSERT, not_le.2 h]

/-- The single-count constructor on a count that passes its own assertion. -/
theorem GridBase_int_of_nonneg (eps : Scalar) (domain : Range Dim) (cell_num : ℤ)
    (h : 0 ≤ cell_num) :
    GridBase_int eps domain cell_num =
      (domain.edgeLengths.div eps (cell_num : Scalar)).map
        (fun dx_ => ⟨domain, dx_, Vector.fill cell_num⟩) := by
  simp only [GridBase_int, PHYSIKA_ASSERT, ge_iff_le, h, decide_True, if_true]
  cases domain.edgeLengths.div eps (cell_num : Scalar) <;> rfl

/-- The per-axis constructor on counts that are all nonnegative. -/
theorem GridBase_vec_of_nonneg (domain : Range Dim) (cell_num : Vector ℤ Dim)
    (h : ∀ i, 0 ≤ cell_num.data_ i) :
    GridBase_vec domain cell_num = some ⟨domain,
      ⟨fun i => domain.edgeLengths.data_ i / (cell_num.data_ i : Scalar)⟩, cell_num⟩ := by
  have hp : (List.finRange Dim).forM
      (fun i => PHYSIKA_ASSERT (decide (cell_num.data_ i ≥ 0))) = some () := by
    rw [forM_eq_some_iff]
    intro i _
    simp [PHYSIKA_ASSERT, h i]
  simp only [GridBase_vec, hp]
  rfl

/-- The per-axis constructor fails when some count is negative. -/
theorem GridBase_vec_of_neg (domain : Range Dim) (cell_num : Vector ℤ Dim)
    (h : ∃ i, cell_num.data_ i < 0) : GridBase_vec domain cell_num = none := by
  have hp : (List.finRange Dim).forM
      (fun i => PHYSIKA_ASSERT (decide (cell_num.data_ i ≥ 0))) = none := by
    rw [forM_eq_none_iff]
    obtain ⟨i, hi⟩ := h
    exact ⟨i, List.mem_finRange i, by simp [PHYSIKA_ASSERT, hi]⟩
  simp only [GridBase_vec, hp]
  rfl

/-- `maxEdgeLength()` is the greatest entry of `dx_` exactly when some entry
reaches the start value `FLT_MIN` of the loop. -/
theorem maxEdgeLength_isGreatest_iff (g : GridBase Dim) :
    IsGreatest (Set.range g.dX.data_) g.maxEdgeLength ↔ ∃ i, FLT_MIN ≤ g.dX.data_ i := by
  obtain ⟨h1, h2, h3⟩ := foldl_max_spec g.dx_.data_ (List.finRange Dim) FLT_MIN
  constructor
  · rintro ⟨⟨i, hi⟩, _⟩
    exact ⟨i, by rw [hi]; exact h1⟩
  · rintro ⟨i, hi⟩
    refine ⟨?_, ?_⟩
    · rcases h3 with h3 | ⟨j, _, hj⟩
      · refine ⟨i, le_antisymm (h2 i (List.mem_finRange i)) ?_⟩
        show g.maxEdgeLength ≤ g.dx_.data_ i
        rw [maxEdgeLength, h3]
        exact hi
      · exact ⟨j, hj.symm⟩
    · rintro _ ⟨j, rfl⟩
      exact h2 j (List.mem_finRange j)

/-- When every entry of `dx_` is below `FLT_MIN`, `maxEdgeLength()` is `FLT_MIN`. -/
theorem maxEdgeLength_of_all_lt (g : GridBase Dim) (h : ∀ i, g.dX.data_ i < FLT_MIN) :
    g.maxEdgeLength = FLT_MIN := by
  obtain ⟨h1, _, h3⟩ := foldl_max_spec g.dx_.data_ (List.finRange Dim) FLT_MIN
  rcases h3 with h3 | ⟨j, _, hj⟩
  · exact h3
  · exact absurd (lt_of_le_of_lt (hj ▸ h1) (h j)) (lt_irrefl _)

/-- `minEdgeLength()` is the least entry of `dx_` exactly when some entry is
at most the start value `FLT_MAX` of the loop. -/
theorem minEdgeLength_isLeast_iff (g : GridBase Dim) :
    IsLeast (Set.range g.dX.data_) g.minEdgeLength ↔ ∃ i, g.dX.data_ i ≤ FLT_MAX := by
  obtain ⟨h1, h2, h3⟩ := foldl_min_spec g.dx_.data_ (List.finRange Dim) FLT_MAX
  constructor
  · rintro ⟨⟨i, hi⟩, _⟩
    exact ⟨i, by rw [hi]; exact h1⟩
  · rintro ⟨i, hi⟩
    refine ⟨?_, ?_⟩
    · rcases h3 with h3 | ⟨j, _, hj⟩
      · refine ⟨i, le_antisymm ?_ (h2 i (List.mem_finRange i))⟩
        show g.dx_.data_ i ≤ g.minEdgeLength
        rw [minEdgeLength, h3]
        exact hi
      · exact ⟨j, hj.symm⟩
    · rintro _ ⟨j, rfl⟩
      exact h2 j (List.mem_finRange j)

/-- When every entry of `dx_` is above `FLT_MAX`, `minEdgeLength()` is `FLT_MAX`. -/
theorem minEdgeLength_of_all_gt (g : GridBase Dim) (h : ∀ i, FLT_MAX < g.dX.data_ i) :
    g.minEdgeLength = FLT_MAX := by
  obtain ⟨h1, _, h3⟩ := foldl_min_spec g.dx_.data_ (List.finRange Dim) FLT_MAX
  rcases h3 with h3 | ⟨j, _, hj⟩
  · exact h3
  · exact absurd (lt_of_lt_of_le (h j) (hj ▸ h1)) (lt_irrefl _)

/-! The grid: node and cell coordinates, construction, edge lengths, cell size -/

/-- C1: for every grid and every multi-index `index` with
`0 <= index[i] <= cellNum()[i]` on every axis `i`, `node(index)` succeeds and
returns the vector whose `i`-th component is
`minCorner()[i] + index[i] * dX()[i]`. -/
theorem node_valid_index (g : GridBase Dim) (index : Vector ℤ Dim)
    (h : ∀ i, 0 ≤ index.data_ i ∧ index.data_ i ≤ g.cellNum.data_ i) :
    ∃ p, g.node index = some p ∧
      ∀ i, p.data_ i = g.minCorner.data_ i + (index.data_ i : Scalar) * g.dX.data_ i :=
  ⟨_, node_of_valid g index h, fun _ => rfl⟩

/-- C1 at the node `(7, 5)` of the 10 x 5 grid over the unit square. -/
theorem node_valid_index_witness :
    (∀ i, 0 ≤ (⟨![7, 5]⟩ : Vector ℤ 2).data_ i ∧
        (⟨![7, 5]⟩ : Vector ℤ 2).data_ i ≤ grid10x5.cellNum.data_ i) ∧
      ∃ p, grid10x5.node ⟨![7, 5]⟩ = some p ∧
        ∀ i, p.data_ i = grid10x5.minCorner.data_ i +
          ((⟨![7, 5]⟩ : Vector ℤ 2).data_ i : Scalar) * grid10x5.dX.data_ i :=
  ⟨by decide, node_valid_index grid10x5 ⟨![7, 5]⟩ (by decide)⟩

/-- C2: for every grid and every multi-index `index` with
`0 <= index[i] < cellNum()[i]` on every axis `i`, `cellCenter(index)` succeeds,
`node(index)` succeeds, and the centre is the node plus one half of `dX()`,
component by component. -/
theorem cellCenter_valid_index (g : GridBase Dim) (index : Vector ℤ Dim)
    (h : ∀ i, 0 ≤ index.data_ i ∧ index.data_ i < g.cellNum.data_ i) :
    ∃ c n, g.cellCenter index = some c ∧ g.node index = some n ∧
      ∀ i, c.data_ i = n.data_ i + (1 / 2) * g.dX.data_ i := by
  refine ⟨_, _, cellCenter_of_valid g index h,
    node_of_valid g index (fun i => ⟨(h i).1, le_of_lt (h i).2⟩), fun i => ?_⟩
  simp only [Vector.add, Vector.mul, dX]
  ring

/-- C2 at the cell `(0, 4)` of the 10 x 5 grid over the unit square. -/
theorem cellCenter_valid_index_witness :
    (∀ i, 0 ≤ (⟨![0, 4]⟩ : Vector ℤ 2).data_ i ∧
        (⟨![0, 4]⟩ : Vector ℤ 2).data_ i < grid10x5.cellNum.data_ i) ∧
      ∃ c n, grid10x5.cellCenter ⟨![0, 4]⟩ = some c ∧ grid10x5.node ⟨![0, 4]⟩ = some n ∧
        ∀ i, c.data_ i = n.data_ i + (1 / 2) * grid10x5.dX.data_ i :=
  ⟨by decide, cellCenter_valid_index grid10x5 ⟨![0, 4]⟩ (by decide)⟩

/-- C3: for every grid and every multi-index `index`, `node(index)` fails
exactly when some axis component lies outside `[0, cellNum()[i]]`. -/
theorem node_fails_iff (g : GridBase Dim) (index : Vector ℤ Dim) :
    g.node index = none ↔ ∃ i, index.data_ i < 0 ∨ g.cellNum.data_ i < index.data_ i := by
  constructor
  · intro hn
    by_contra hc
    push_neg at hc
    have := node_of_valid g index (fun i => hc i)
    rw [hn] at this
    exact Option.noConfusion this
  · rintro ⟨i, hi⟩
    apply node_of_invalid
    intro hall
    have := hall i
    rcases hi with hi | hi
    · omega
    · simp only [cellNum] at hi; omega

/-- C4: for every grid and every multi-index `index`, `cellCenter(index)`
fails exactly when some axis component lies outside `[0, cellNum()[i])`; and
whenever the range check of `cellCenter` passes, the nested call `node(index)`
does not fail. -/
theorem cellCenter_fails_iff (g : GridBase Dim) (index : Vector ℤ Dim) :
    (g.cellCenter index = none ↔
        ∃ i, index.data_ i < 0 ∨ g.cellNum.data_ i ≤ index.data_ i) ∧
      ((∀ i, 0 ≤ index.data_ i ∧ index.data_ i < g.cellNum.data_ i) →
        g.node index ≠ none) := by
  refine ⟨⟨fun hn => ?_, ?_⟩, fun h hnode => ?_⟩
  · by_contra hc
    push_neg at hc
    have := cellCenter_of_valid g index (fun i => hc i)
    rw [hn] at this
    exact Option.noConfusion this
  · rintro ⟨i, hi⟩
    apply cellCenter_of_invalid
    intro hall
    have := hall i
    simp only [cellNum] at hi
    omega
  · have := node_of_valid g index (fun i => ⟨(h i).1, le_of_lt (h i).2⟩)
    rw [hnode] at this
    exact Option.noConfusion this

/-- C4 at the cell `(9, 0)` of the 10 x 5 grid over the unit square. -/
theorem cellCenter_fails_iff_witness :
    (∀ i, 0 ≤ (⟨![9, 0]⟩ : Vector ℤ 2).data_ i ∧
        (⟨![9, 0]⟩ : Vector ℤ 2).data_ i < grid10x5.cellNum.data_ i) ∧
      grid10x5.node ⟨![9, 0]⟩ ≠ none :=
  ⟨by decide, (cellCenter_fails_iff grid10x5 ⟨![9, 0]⟩).2 (by decide)⟩

/-- Every grid produced by either constructor (single cell count, or per-axis
vector of cell counts) has the given domain and `cellNum()` equal to the
requested count(s); on every axis `i` whose count is not zero, `dX()[i]` is
the quotient `domain().edgeLengths()[i] / cellNum()[i]`, that is the scalar
whose product with `cellNum()[i]` is the edge length. -/
theorem constructed_dx_of_count_ne_zero (eps : Scalar) (domain : Range Dim) :
    (∀ (cell_num : ℤ) (g : GridBase Dim), GridBase_int eps domain cell_num = some g →
        g.domain = domain ∧ g.cellNum = Vector.fill cell_num ∧
        ∀ i, g.cellNum.data_ i ≠ 0 →
          g.dX.data_ i = g.domain.edgeLengths.data_ i / (g.cellNum.data_ i : Scalar) ∧
          g.dX.data_ i * (g.cellNum.data_ i : Scalar) = g.domain.edgeLengths.data_ i) ∧
    (∀ (cell_num : Vector ℤ Dim) (g : GridBase Dim), GridBase_vec domain cell_num = some g →
        g.domain = domain ∧ g.cellNum = cell_num ∧
        ∀ i, g.cellNum.data_ i ≠ 0 →
          g.dX.data_ i = g.domain.edgeLengths.data_ i / (g.cellNum.data_ i : Scalar) ∧
          g.dX.data_ i * (g.cellNum.data_ i : Scalar) = g.domain.edgeLengths.data_ i) := by
  constructor
  · intro n g hg
    rcases lt_or_le n 0 with hn | hn
    · rw [GridBase_int_of_neg eps domain n hn] at hg
      exact Option.noConfusion hg
    · rw [GridBase_int_of_nonneg eps domain n hn] at hg
      rcases le_or_lt |(n : Scalar)| eps with he | he
      · rw [Vector.div_of_le eps _ _ he] at hg
        exact Option.noConfusion hg
      · rw [Vector.div_of_gt eps _ _ he] at hg
        simp only [Option.map_some', Option.some.injEq] at hg
        subst hg
        refine ⟨rfl, rfl, fun i hi => ⟨rfl, ?_⟩⟩
        have hi' : ((n : ℤ) : Scalar) ≠ 0 := Int.cast_ne_zero.2 hi
        exact div_mul_cancel₀ _ hi'
  · intro v g hg
    by_cases hv : ∀ i, 0 ≤ v.data_ i
    · rw [GridBase_vec_of_nonneg domain v hv] at hg
      simp only [Option.some.injEq] at hg
      subst hg
      refine ⟨rfl, rfl, fun i hi => ⟨rfl, ?_⟩⟩
      have hi' : ((v.data_ i : ℤ) : Scalar) ≠ 0 := Int.cast_ne_zero.2 hi
      exact div_mul_cancel₀ _ hi'
    · push_neg at hv
      rw [GridBase_vec_of_neg domain v hv] at hg
      exact Option.noConfusion hg

/-- C6: the code at a failing input.  The 2D grid of one cell per axis over
the square of edge `2^-130` is constructed, has `dX() = (2^-130, 2^-130)`, and
its `maxEdgeLength()` is `FLT_MIN = 2^-126`, which is not the maximum of
`dX()[i]` over the axes. -/
theorem maxEdgeLength_tinySquare :
    ∃ g, GridBase_int epsilon_float tinySquare 1 = some g ∧
      (∀ i, g.dX.data_ i = 1 / 2 ^ 130) ∧ g.maxEdgeLength = 1 / 2 ^ 126 ∧
      ¬ IsGreatest (Set.range g.dX.data_) g.maxEdgeLength := by
  have hc : GridBase_int epsilon_float tinySquare 1 =
      some ⟨tinySquare, ⟨fun i => tinySquare.edgeLengths.data_ i / ((1 : ℤ) : Scalar)⟩,
        Vector.fill 1⟩ := by
    rw [GridBase_int_of_nonneg _ _ _ (by norm_num), Vector.div_of_gt]
    · rfl
    · norm_num [epsilon_float]
  have hdx : ∀ i : Fin 2, tinySquare.edgeLengths.data_ i / ((1 : ℤ) : Scalar) = 1 / 2 ^ 130 := by
    intro i
    simp [tinySquare, Range.edgeLengths, Vector.sub, Vector.fill]
  refine ⟨_, hc, hdx, ?_, ?_⟩
  · rw [maxEdgeLength_of_all_lt]
    · rfl
    · intro i
      show tinySquare.edgeLengths.data_ i / ((1 : ℤ) : Scalar) < FLT_MIN
      rw [hdx i]
      norm_num [FLT_MIN]
  · rw [maxEdgeLength_isGreatest_iff]
    rintro ⟨i, hi⟩
    have : FLT_MIN ≤ tinySquare.edgeLengths.data_ i / ((1 : ℤ) : Scalar) := hi
    rw [hdx i] at this
    norm_num [FLT_MIN] at this

/-- C7: the code at a failing input.  The 2D grid of one cell per axis over
the square of edge `2^130` is constructed, has `dX() = (2^130, 2^130)`, and its
`minEdgeLength()` is `FLT_MAX = (2^24 - 1) * 2^104`, which is not the minimum
of `dX()[i]` over the axes. -/
theorem minEdgeLength_hugeSquare :
    ∃ g, GridBase_int epsilon_double hugeSquare 1 = some g ∧
      (∀ i, g.dX.data_ i = 2 ^ 130) ∧ g.minEdgeLength = (2 ^ 24 - 1) * 2 ^ 104 ∧
      ¬ IsLeast (Set.range g.dX.data_) g.minEdgeLength := by
  have hc : GridBase_int epsilon_double hugeSquare 1 =
      some ⟨hugeSquare, ⟨fun i => hugeSquare.edgeLengths.data_ i / ((1 : ℤ) : Scalar)⟩,
        Vector.fill 1⟩ := by
    rw [GridBase_int_of_nonneg _ _ _ (by norm_num), Vector.div_of_gt]
    · rfl
    · norm_num [epsilon_double]
  have hdx : ∀ i : Fin 2, hugeSquare.edgeLengths.data_ i / ((1 : ℤ) : Scalar) = 2 ^ 130 := by
    intro i
    simp [hugeSquare, Range.edgeLengths, Vector.sub, Vector.fill]
  refine ⟨_, hc, hdx, ?_, ?_⟩
  · rw [minEdgeLength_of_all_gt]
    · rfl
    · intro i
      show FLT_MAX < hugeSquare.edgeLengths.data_ i / ((1 : ℤ) : Scalar)
      rw [hdx i]
      norm_num [FLT_MAX]
  · rw [minEdgeLength_isLeast_iff]
    rintro ⟨i, hi⟩
    have : hugeSquare.edgeLengths.data_ i / ((1 : ℤ) : Scalar) ≤ FLT_MAX := hi
    rw [hdx i] at this
    norm_num [FLT_MAX] at this

/-- C8: for every domain, construction from a negative single cell count
fails, and construction from a per-axis vector with a negative component
fails; no grid is produced. -/
theorem negative_cell_count_fails (eps : Scalar) (domain : Range Dim) :
    (∀ cell_num : ℤ, cell_num < 0 → GridBase_int eps domain cell_num = none) ∧
    (∀ cell_num : Vector ℤ Dim, (∃ i, cell_num.data_ i < 0) →
        GridBase_vec domain cell_num = none) :=
  ⟨fun n hn => GridBase_int_of_neg eps domain n hn,
   fun v hv => GridBase_vec_of_neg domain v hv⟩

/-- C8 at the unit square: the single count `-1` and the per-axis vector
`(3, -1)`. -/
theorem negative_cell_count_fails_witness :
    ((-1 : ℤ) < 0 ∧ GridBase_int epsilon_float unitSquare (-1) = none) ∧
      ((∃ i, (⟨![3, -1]⟩ : Vector ℤ 2).data_ i < 0) ∧
        GridBase_vec unitSquare ⟨![3, -1]⟩ = none) :=
  ⟨⟨by decide, (negative_cell_count_fails epsilon_float unitSquare).1 (-1) (by decide)⟩,
   ⟨by decide, (negative_cell_count_fails epsilon_float unitSquare).2 ⟨![3, -1]⟩ (by decide)⟩⟩

/-- C9: the code at the failing input.  Over the unit cube with the `float`
epsilon, the single cell count `0` fails (the assertion of the vector
quotient), while the per-axis vector `(0, 0, 0)`, whose every component is
that count, produces a grid: the two constructors do not behave identically. -/
theorem uniform_count_zero_differs :
    GridBase_int epsilon_float unitCube 0 = none ∧
      ∃ g, GridBase_vec unitCube (Vector.fill 0) = some g ∧
        g.domain = unitCube ∧ g.cellNum = Vector.fill 0 := by
  constructor
  · rw [GridBase_int_of_nonneg _ _ _ (le_refl 0), Vector.div_of_le]
    · rfl
    · norm_num [epsilon_float]
  · exact ⟨_, GridBase_vec_of_nonneg unitCube (Vector.fill 0) (fun _ => le_refl 0), rfl, rfl⟩

/-- For every domain of dimension at least one, every scalar
epsilon below one and every integer `n` other than zero, construction from
the single cell count `n` and construction from the per-axis vector whose
every component is `n` give the same result: both fail, or both produce the
same grid (the same domain, `cellNum()` and `dX()`); they succeed exactly
when `n` is positive. -/
theorem uniform_count_agrees_of_ne_zero (eps : Scalar) (heps : eps < 1) (hDim : 0 < Dim)
    (domain : Range Dim) (n : ℤ) (hn : n ≠ 0) :
    GridBase_int eps domain n = GridBase_vec domain (Vector.fill n) ∧
      ((GridBase_int eps domain n).isSome ↔ 0 < n) := by
  rcases lt_or_gt_of_ne hn with hneg | hpos
  · rw [GridBase_int_of_neg eps domain n hneg,
      GridBase_vec_of_neg domain (Vector.fill n) ⟨⟨0, hDim⟩, hneg⟩]
    simp [not_lt.2 (le_of_lt hneg)]
  · have h1 : (1 : Scalar) ≤ |(n : Scalar)| := by
      have : (1 : ℤ) ≤ |n| := Int.one_le_abs hn
      exact_mod_cast this
    rw [GridBase_int_of_nonneg eps domain n (le_of_lt hpos),
      Vector.div_of_gt eps _ _ (lt_of_lt_of_le heps h1),
      GridBase_vec_of_nonneg domain (Vector.fill n) (fun _ => le_of_lt hpos)]
    simp [hpos, Vector.fill]

/-- The two constructors at the unit cube with 4 cells per axis and the `float`
epsilon. -/
theorem uniform_count_agrees_of_ne_zero_witness :
    epsilon_float < 1 ∧ 0 < 3 ∧ (4 : ℤ) ≠ 0 ∧
      (GridBase_int epsilon_float unitCube 4 = GridBase_vec unitCube (Vector.fill 4) ∧
        ((GridBase_int epsilon_float unitCube 4).isSome ↔ (0 : ℤ) < 4)) :=
  ⟨by norm_num [epsilon_float], by decide, by decide,
    uniform_count_agrees_of_ne_zero epsilon_float (by norm_num [epsilon_float]) (by decide)
      unitCube 4 (by decide)⟩

/-- C10: for every grid, `cellSize()` is the product of `dX()[i]` over all
axes `i`. -/
theorem cellSize_eq_prod (g : GridBase Dim) : g.cellSize = ∏ i, g.dX.data_ i := by
  have key : ∀ (l : List (Fin Dim)) (a : Scalar),
      l.foldl (fun size i => size * g.dx_.data_ i) a = a * (l.map g.dx_.data_).prod := by
    intro l
    induction l with
    | nil => intro a; simp
    | cons x l ih => intro a; simp [ih, mul_assoc]
  rw [cellSize, key, one_mul, Fin.prod_univ_def]
  rfl

end GridBase

namespace GridBase

variable {Dim : Nat}

/-- An `int` sum inside the range of `int` is stored unchanged. -/
theorem int_wrap_of_range (z : ℤ) (h0 : INT_MIN ≤ z) (h1 : z ≤ INT_MAX) : int_wrap z = z := by
  simp only [INT_MIN, INT_MAX] at h0 h1
  simp only [int_wrap]
  omega

/-- C11, counterexample: the per-axis constructor accepts `INT_MAX` cells per
axis over the unit square; on that grid `cellNum()[0]` is `INT_MAX` and the
`int` sum of `nodeNum()` wraps to `INT_MIN`, which is not `cellNum()[0] + 1`. -/
theorem nodeNum_at_INT_MAX :
    ∃ g, GridBase_vec unitSquare (Vector.fill INT_MAX) = some g ∧
      g.cellNum.data_ 0 = INT_MAX ∧ g.nodeNum.data_ 0 = INT_MIN ∧
      g.nodeNum.data_ 0 ≠ g.cellNum.data_ 0 + 1 := by
  have hw : int_wrap (INT_MAX + 1) = INT_MIN := by
    simp only [int_wrap, INT_MAX, INT_MIN]
    norm_num
  refine ⟨_, GridBase_vec_of_nonneg unitSquare (Vector.fill INT_MAX) (fun _ => ?_), rfl, hw, ?_⟩
  · simp only [Vector.fill, INT_MAX]
    norm_num
  · show int_wrap (INT_MAX + 1) ≠ INT_MAX + 1
    rw [hw]
    simp only [INT_MIN, INT_MAX]
    norm_num

/-- C11, amended: for every grid and every axis `i` on which `cellNum()[i]` is
an `int` below `INT_MAX`, `nodeNum()[i]` is `cellNum()[i] + 1`. -/
theorem nodeNum_eq_cellNum_add_one (g : GridBase Dim) (i : Fin Dim)
    (h0 : INT_MIN ≤ g.cellNum.data_ i) (h1 : g.cellNum.data_ i < INT_MAX) :
    g.nodeNum.data_ i = g.cellNum.data_ i + 1 := by
  have h0' : INT_MIN ≤ g.cell_num_.data_ i + 1 := by
    have : INT_MIN ≤ g.cell_num_.data_ i := h0
    omega
  have h1' : g.cell_num_.data_ i + 1 ≤ INT_MAX := by
    have : g.cell_num_.data_ i < INT_MAX := h1
    omega
  simp only [nodeNum, cellNum, Vector.add_int, Vector.fill]
  exact int_wrap_of_range _ h0' h1'

/-- C11, amended, on axis 1 of the 10 x 5 grid over the unit square. -/
theorem nodeNum_eq_cellNum_add_one_witness :
    INT_MIN ≤ grid10x5.cellNum.data_ 1 ∧ grid10x5.cellNum.data_ 1 < INT_MAX ∧
      grid10x5.nodeNum.data_ 1 = grid10x5.cellNum.data_ 1 + 1 :=
  ⟨by decide, by decide, nodeNum_eq_cellNum_add_one grid10x5 1 (by decide) (by decide)⟩

/-- C12: the 2D grid over `[0,1] x [0,1]` with 10 cells per axis, built by
either constructor (with the epsilon of `float` or of `double`), has
`dX() = (1/10, 1/10)`, `node((5,5)) = (1/2, 1/2)` and
`cellCenter((0,0)) = (1/20, 1/20)`. -/
theorem unit_square_ten_cells :
    GridBase_int epsilon_float unitSquare 10 = some grid10 ∧
    GridBase_int epsilon_double unitSquare 10 = some grid10 ∧
    GridBase_vec unitSquare (Vector.fill 10) = some grid10 ∧
    grid10.dX = ⟨![1 / 10, 1 / 10]⟩ ∧
    grid10.node ⟨![5, 5]⟩ = some ⟨![1 / 2, 1 / 2]⟩ ∧
    grid10.cellCenter ⟨![0, 0]⟩ = some ⟨![1 / 20, 1 / 20]⟩ := by
  have hdx : ∀ i : Fin 2, unitSquare.edgeLengths.data_ i / ((10 : ℤ) : Scalar) = 1 / 10 := by
    intro i
    simp [unitSquare, Range.edgeLengths, Vector.sub, Vector.fill]
  refine ⟨?_, ?_, ?_, ?_, ?_, ?_⟩
  · rw [GridBase_int_of_nonneg _ _ _ (by norm_num),
      Vector.div_of_gt _ _ _ (by norm_num [epsilon_float])]
    simp only [Option.map_some', Option.some.injEq, grid10, GridBase.mk.injEq, true_and,
      and_true]
    ext i
    exact hdx i
  · rw [GridBase_int_of_nonneg _ _ _ (by norm_num),
      Vector.div_of_gt _ _ _ (by norm_num [epsilon_double])]
    simp only [Option.map_some', Option.some.injEq, grid10, GridBase.mk.injEq, true_and,
      and_true]
    ext i
    exact hdx i
  · rw [GridBase_vec_of_nonneg _ _ (by decide)]
    simp only [Option.some.injEq, grid10, GridBase.mk.injEq, true_and, and_true]
    ext i
    exact hdx i
  · ext i
    fin_cases i <;> simp [grid10, dX, Vector.fill]
  · rw [node_of_valid grid10 ⟨![5, 5]⟩ (by decide)]
    simp only [Option.some.injEq]
    ext i
    fin_cases i <;> norm_num [grid10, unitSquare, Range.minCorner, Vector.add, Vector.fill]
  · rw [cellCenter_of_valid grid10 ⟨![0, 0]⟩ (by decide)]
    simp only [Option.some.injEq]
    ext i
    fin_cases i <;>
      norm_num [grid10, unitSquare, Range.minCorner, Vector.add, Vector.mul, Vector.fill]

end GridBase

namespace Grid

variable {Dim : Nat}

/-- C13: the code on every grid.  Each of `nodeBegin()`, `nodeEnd()`,
`cellBegin()` and `cellEnd()` builds a local iterator bound to the grid, with
the all-zero index (begin) or the all-(-1) index (end), and returns nothing:
the bodies have no `return` statement. -/
theorem begin_end_return_nothing (g : GridBase Dim) :
    (nodeBegin_iterator g = ⟨Vector.fill 0, some g⟩ ∧ nodeBegin g = none) ∧
    (nodeEnd_iterator g = ⟨Vector.fill (-1), some g⟩ ∧ nodeEnd g = none) ∧
    (cellBegin_iterator g = ⟨Vector.fill 0, some g⟩ ∧ cellBegin g = none) ∧
    (cellEnd_iterator g = ⟨Vector.fill (-1), some g⟩ ∧ cellEnd g = none) :=
  ⟨⟨rfl, rfl⟩, ⟨rfl, rfl⟩, ⟨rfl, rfl⟩, ⟨rfl, rfl⟩⟩

/-- Advancing what a call that delivered nothing returned delivers nothing. -/
theorem advanceTimes_none (advance : GridIterator Dim → Option (GridIterator Dim))
    (n : Nat) : advanceTimes advance n none = none := by
  induction n with
  | zero => rfl
  | succ n ih => simpa [advanceTimes] using ih

/-- C14: the code on every grid.  Whatever the increment operator of the
iterators does, and for every number `n` of advances, advancing from
`nodeBegin()` or from `cellBegin()` delivers no iterator: the calls return
nothing, so the iteration reaches neither the end iterator built by
`nodeEnd()` nor the one built by `cellEnd()`. -/
theorem iteration_from_begin_undefined (g : GridBase Dim)
    (advance : GridIterator Dim → Option (GridIterator Dim)) (n : Nat) :
    advanceTimes advance n (nodeBegin g) = none ∧
    advanceTimes advance n (cellBegin g) = none ∧
    advanceTimes advance n (nodeBegin g) ≠ some (nodeEnd_iterator g) ∧
    advanceTimes advance n (cellBegin g) ≠ some (cellEnd_iterator g) := by
  have h1 : advanceTimes advance n (nodeBegin g) = none := advanceTimes_none advance n
  have h2 : advanceTimes advance n (cellBegin g) = none := advanceTimes_none advance n
  refine ⟨h1, h2, ?_, ?_⟩
  · rw [h1]; exact fun h => Option.noConfusion h
  · rw [h2]; exact fun h => Option.noConfusion h

end Grid

namespace ArrayNDIterator

variable {ElementType : Type}

/-- The operators other than the postfix ones: a default-constructed iterator
(`array_ == NULL`) makes each of `==`, `!=`, prefix `++` and `--`, `+ stride`,
`- stride` and the dereference end the process; `==` and `!=` end the process
exactly when one of the two operands is unbound; prefix `++`, `--`, `+` and
`-` end it exactly when the iterator is unbound; and the dereference of a bound
iterator ends the process exactly when the index is at or above
`totalElementCount()`. -/
theorem fatal_iff_unbound (k : IndexType) (self iterator : ArrayNDIterator ElementType)
    (stride : ℤ) :
    ((default_constructed : ArrayNDIterator ElementType).eq iterator = none ∧
      self.eq default_constructed = none ∧
      (default_constructed : ArrayNDIterator ElementType).ne iterator = none ∧
      self.ne default_constructed = none ∧
      (default_constructed : ArrayNDIterator ElementType).preIncrement k = none ∧
      (default_constructed : ArrayNDIterator ElementType).preDecrement k = none ∧
      (default_constructed : ArrayNDIterator ElementType).plus k stride = none ∧
      (default_constructed : ArrayNDIterator ElementType).minus k stride = none ∧
      (default_constructed : ArrayNDIterator ElementType).deref k =
        Dereference.exit_failure) ∧
    (self.eq iterator = none ↔ self.array_ = none ∨ iterator.array_ = none) ∧
    (self.ne iterator = none ↔ self.array_ = none ∨ iterator.array_ = none) ∧
    (self.preIncrement k = none ↔ self.array_ = none) ∧
    (self.preDecrement k = none ↔ self.array_ = none) ∧
    (self.plus k stride = none ↔ self.array_ = none) ∧
    (self.minus k stride = none ↔ self.array_ = none) ∧
    (self.deref k = Dereference.exit_failure ↔
      self.array_ = none ∨
        ∃ a, self.array_ = some a ∧ a.totalElementCount ≤ k.store self.element_idx_) := by
  refine ⟨⟨?_, ?_, ?_, ?_, rfl, rfl, rfl, rfl, rfl⟩, ?_, ?_, ?_, ?_, ?_, ?_, ?_⟩
  · simp [eq, default_constructed]
  · cases h : self.array_ <;> simp [eq, default_constructed, h]
  · simp [ne, default_constructed]
  · cases h : self.array_ <;> simp [ne, default_constructed, h]
  · cases h1 : self.array_ <;> cases h2 : iterator.array_ <;> simp [eq, h1, h2]
  · cases h1 : self.array_ <;> cases h2 : iterator.array_ <;> simp [ne, h1, h2]
  · cases h : self.array_ <;> simp [preIncrement, h]
  · cases h : self.array_ <;> simp [preDecrement, h]
  · cases h : self.array_ <;> simp [plus, h]
  · cases h : self.array_ <;> simp [minus, h]
  · cases h : self.array_ with
    | none => simp [deref, h]
    | some a =>
      have hiff : (some a = none ∨ ∃ b, some a = some b ∧
          b.totalElementCount ≤ k.store self.element_idx_) ↔
          a.totalElementCount ≤ k.store self.element_idx_ := by
        simp
      rw [hiff]
      simp only [deref, h, ge_iff_le]
      constructor
      · intro hd
        by_contra hle
        rw [if_neg hle] at hd
        split_ifs at hd
        split at hd <;> exact Dereference.noConfusion hd
      · intro hle
        rw [if_pos hle]

/-- C15: the code at the failing input.  The postfix `++` and `--` are
ill-formed (their local copy is declared as `ArrayIterator<ElementType>`,
another class): on the default-constructed iterator they do not end the
process, and on every iterator, bound or not, they return nothing. -/
theorem postfix_operators_ill_formed (k : IndexType) (self : ArrayNDIterator ElementType) :
    (postIncrement k (default_constructed : ArrayNDIterator ElementType) = Postfix.ill_formed ∧
      postIncrement k (default_constructed : ArrayNDIterator ElementType) ≠
        Postfix.exit_failure ∧
      postDecrement k (default_constructed : ArrayNDIterator ElementType) = Postfix.ill_formed ∧
      postDecrement k (default_constructed : ArrayNDIterator ElementType) ≠
        Postfix.exit_failure) ∧
    (postIncrement k self = Postfix.ill_formed ∧
      (∀ copy self_after, postIncrement k self ≠ Postfix.returned copy self_after) ∧
      postDecrement k self = Postfix.ill_formed ∧
      (∀ copy self_after, postDecrement k self ≠ Postfix.returned copy self_after)) :=
  ⟨⟨rfl, fun h => Postfix.noConfusion h, rfl, fun h => Postfix.noConfusion h⟩,
    ⟨rfl, fun _ _ h => Postfix.noConfusion h, rfl, fun _ _ h => Postfix.noConfusion h⟩⟩

end ArrayNDIterator

namespace MPMSolid

variable {Particle : Type}

/-- The particle at a valid index. -/
theorem particle_of_lt (d : MPMSolid Particle) (j : Nat) (h : j < d.particleNum) :
    d.particle j = some (d.particles_.get ⟨j, h⟩) := by
  simp only [particle, h, decide_True, PHYSIKA_ASSERT, if_true]
  show d.particles_[j]? = _
  rw [List.getElem?_eq_getElem h]
  rfl

/-- C20: with `n = particleNum()`, `removeParticle(k)` is a fatal precondition
failure when `k >= n`; when `k < n` it succeeds and leaves `particleNum()` at
`n - 1`, `particle(j)` unchanged (and defined) for `j < k`, and the new
`particle(j)` equal to the old `particle(j+1)` (both defined) for
`k <= j < n - 1`. -/
theorem removeParticle_shifts (d : MPMSolid Particle) (k : Nat) :
    (d.particleNum ≤ k → d.removeParticle k = none) ∧
    (k < d.particleNum → ∃ d', d.removeParticle k = some d' ∧
      d'.particleNum = d.particleNum - 1 ∧
      (∀ j, j < k → d'.particle j = d.particle j ∧ (d.particle j).isSome) ∧
      (∀ j, k ≤ j → j < d.particleNum - 1 →
        d'.particle j = d.particle (j + 1) ∧ (d.particle (j + 1)).isSome)) := by
  constructor
  · intro h
    simp [removeParticle, PHYSIKA_ASSERT, not_lt.2 h]
  · intro h
    have hlen : (d.particles_.eraseIdx k).length = d.particles_.length - 1 :=
      List.length_eraseIdx_of_lt h
    refine ⟨⟨d.particles_.eraseIdx k⟩, ?_, hlen, ?_, ?_⟩
    · simp [removeParticle, PHYSIKA_ASSERT, h]
    · intro j hj
      have hjn : j < d.particleNum := lt_trans hj h
      have hjn' : j < (MPMSolid.mk (d.particles_.eraseIdx k)).particleNum := by
        show j < (d.particles_.eraseIdx k).length
        rw [hlen]
        have : k < d.particles_.length := h
        omega
      rw [particle_of_lt _ j hjn', particle_of_lt d j hjn]
      refine ⟨?_, rfl⟩
      simp only [Option.some.injEq, List.get_eq_getElem]
      rw [List.getElem_eraseIdx_of_lt _ _ _ _ hj]
    · intro j hkj hj
      have hjn : j + 1 < d.particleNum := by omega
      have hjn' : j < (MPMSolid.mk (d.particles_.eraseIdx k)).particleNum := by
        show j < (d.particles_.eraseIdx k).length
        rw [hlen]
        exact hj
      rw [particle_of_lt _ j hjn', particle_of_lt d (j + 1) hjn]
      refine ⟨?_, rfl⟩
      simp only [Option.some.injEq, List.get_eq_getElem]
      rw [List.getElem_eraseIdx_of_ge _ _ _ _ hkj]

end MPMSolid

namespace Grid

variable {Dim : Nat}

/-- The iterator built by `cellBegin()` (all-zero index) is not the iterator
built by `cellEnd()` (all-(-1) index), whatever the cell counts of the grid,
as soon as the grid has an axis; likewise for the node iterators. -/
theorem begin_iterator_ne_end_iterator (g : GridBase Dim) (hDim : 0 < Dim) :
    cellBegin_iterator g ≠ cellEnd_iterator g ∧ nodeBegin_iterator g ≠ nodeEnd_iterator g := by
  have key : (Vector.fill 0 : Vector ℤ Dim) ≠ Vector.fill (-1) := by
    intro h
    have := congrFun (congrArg Vector.data_ h) ⟨0, hDim⟩
    simp [Vector.fill] at this
  constructor
  · intro h
    exact key (congrArg GridIterator.index_ h)
  · intro h
    exact key (congrArg GridIterator.index_ h)

end Grid

namespace SparseMatrix

/-- An entry sits at a position exactly when its row and column are those. -/
theorem isAt_iff (t : Trituple) (r c : Nat) :
    t.isAt r c = true ↔ t.row_ = r ∧ t.col_ = c := by
  simp [Trituple.isAt]

/-- The empty storage reads zero. -/
theorem stored_nil (r c : Nat) : stored [] r c = 0 := rfl

/-- The storage reads its first entry when that one sits at the position, and
the rest of the storage otherwise. -/
theorem stored_cons (t : Trituple) (l : List Trituple) (r c : Nat) :
    stored (t :: l) r c = if t.isAt r c then t.value_ else stored l r c := by
  cases h : t.isAt r c <;> simp [stored, List.find?_cons, h]

/-- The storage reads zero at a position that holds no entry. -/
theorem stored_of_not_any (l : List Trituple) (r c : Nat)
    (h : ∀ t ∈ l, ¬ (t.row_ = r ∧ t.col_ = c)) : stored l r c = 0 := by
  induction l with
  | nil => rfl
  | cons t l ih =>
    have ht : t.isAt r c = false := by
      rw [← Bool.not_eq_true, isAt_iff]
      exact h t (List.mem_cons_self t l)
    rw [stored_cons, ht]
    exact ih (fun u hu => h u (List.mem_cons_of_mem t hu))

/-- The storage after the entries at `(row, col)` are deleted. -/
theorem stored_filter (l : List Trituple) (row col r c : Nat) :
    stored (l.filter (fun t => !t.isAt row col)) r c =
      if r = row ∧ c = col then 0 else stored l r c := by
  induction l with
  | nil => simp [stored_nil]
  | cons t l ih =>
    by_cases hrc : r = row ∧ c = col
    · obtain ⟨h1, h2⟩ := hrc
      subst h1 h2
      simp only [and_self, if_true] at ih ⊢
      cases ht : t.isAt r c
      · rw [List.filter_cons_of_pos (by simp [ht]), stored_cons, ht]
        exact ih
      · rw [List.filter_cons_of_neg (by simp [ht])]
        exact ih
    · rw [if_neg hrc] at ih ⊢
      cases ht : t.isAt row col
      · rw [List.filter_cons_of_pos (by simp [ht]), stored_cons, stored_cons, ih]
      · rw [List.filter_cons_of_neg (by simp [ht]), stored_cons, ih]
        have hne : t.isAt r c = false := by
          rw [← Bool.not_eq_true, isAt_iff]
          rintro ⟨h1, h2⟩
          rw [isAt_iff] at ht
          exact hrc ⟨h1 ▸ ht.1, h2 ▸ ht.2⟩
        rw [hne]
        rfl

/-- The storage after the entries at `(row, col)` are overwritten with `v`. -/
theorem stored_overwrite (l : List Trituple) (row col : Nat) (v : Scalar) (r c : Nat) :
    stored (l.map (fun t => if t.isAt row col then ⟨row, col, v⟩ else t)) r c =
      if r = row ∧ c = col then (if l.any (fun t => t.isAt row col) then v else 0)
      else stored l r c := by
  induction l with
  | nil => simp [stored_nil]
  | cons t l ih =>
    rw [List.map_cons, stored_cons, ih, List.any_cons]
    have hnew : (⟨row, col, v⟩ : Trituple).isAt r c = decide (r = row ∧ c = col) := by
      simp only [Trituple.isAt]
      exact decide_eq_decide.2 ⟨fun h => ⟨h.1.symm, h.2.symm⟩, fun h => ⟨h.1.symm, h.2.symm⟩⟩
    by_cases hrc : r = row ∧ c = col
    · obtain ⟨h1, h2⟩ := hrc
      subst h1 h2
      cases ht : t.isAt r c <;> simp [hnew, ht]
    · cases ht : t.isAt row col
      · simp [hrc, stored_cons]
      · have hne : t.isAt r c = false := by
          rw [← Bool.not_eq_true, isAt_iff]
          rintro ⟨h1, h2⟩
          rw [isAt_iff] at ht
          exact hrc ⟨h1 ▸ ht.1, h2 ▸ ht.2⟩
        simp [hrc, stored_cons, hnew, hne]

/-- The storage after an entry is appended. -/
theorem stored_append (l : List Trituple) (t : Trituple) (r c : Nat) :
    stored (l ++ [t]) r c =
      if l.any (fun u => u.isAt r c) then stored l r c
      else if t.isAt r c then t.value_ else 0 := by
  induction l with
  | nil => simp [stored_cons, stored_nil]
  | cons u l ih =>
    rw [List.cons_append, stored_cons, stored_cons, ih, List.any_cons]
    cases hu : u.isAt r c <;> simp

/-- Some entry of the storage sits at the position. -/
theorem any_isAt_iff (l : List Trituple) (r c : Nat) :
    l.any (fun t => t.isAt r c) = true ↔ ∃ t ∈ l, t.row_ = r ∧ t.col_ = c := by
  simp [List.any_eq_true, Trituple.isAt]

/-- The storage of the transposed entries, read at the swapped position. -/
theorem stored_transposed (l : List Trituple) (r c : Nat) :
    stored (l.map Trituple.transposed) c r = stored l r c := by
  induction l with
  | nil => rfl
  | cons t l ih =>
    have hk : t.transposed.isAt c r = t.isAt r c := by
      simp only [Trituple.isAt, Trituple.transposed]
      exact decide_eq_decide.2 and_comm
    rw [List.map_cons, stored_cons, stored_cons, ih, hk]
    rfl

end SparseMatrix

namespace SparseMatrix

/-- Reading a position inside the shape succeeds with the stored value. -/
theorem coeff_of_inrange (A : SparseMatrix) (r c : Nat) (h : r < A.rows_ ∧ c < A.cols_) :
    A.coeff r c = some (stored A.elements_ r c) := by
  simp [coeff, PHYSIKA_ASSERT, h]

/-- Reading a position outside the shape is fatal. -/
theorem coeff_of_not_inrange (A : SparseMatrix) (r c : Nat)
    (h : ¬ (r < A.rows_ ∧ c < A.cols_)) : A.coeff r c = none := by
  simp only [coeff, PHYSIKA_ASSERT, h, decide_False]
  rfl

/-- The step of `setEntry` on a position inside the shape: it succeeds, keeps
the shape, and changes what the storage reads at that position only. -/
theorem setEntry_spec (A : SparseMatrix) (row col : Nat) (v : Scalar)
    (h : row < A.rows_ ∧ col < A.cols_) :
    ∃ A', A.setEntry row col v = some A' ∧ A'.rows_ = A.rows_ ∧ A'.cols_ = A.cols_ ∧
      ∀ r c, stored A'.elements_ r c = if r = row ∧ c = col then v else stored A.elements_ r c := by
  by_cases hv : v = 0
  · refine ⟨{ A with elements_ := A.elements_.filter (fun t => !t.isAt row col) }, ?_, rfl, rfl,
      fun r c => ?_⟩
    · simp [setEntry, PHYSIKA_ASSERT, h, hv]
    · rw [stored_filter, hv]
  · by_cases hany : A.elements_.any (fun t => t.isAt row col) = true
    · refine ⟨{ A with elements_ :=
          A.elements_.map (fun t => if t.isAt row col then ⟨row, col, v⟩ else t) }, ?_, rfl, rfl,
        fun r c => ?_⟩
      · simp only [setEntry, PHYSIKA_ASSERT, h, and_self, decide_True, if_true, hv, if_false,
          hany]
        rfl
      · rw [stored_overwrite, hany]
        rfl
    · refine ⟨{ A with elements_ := A.elements_ ++ [⟨row, col, v⟩] }, ?_, rfl, rfl,
        fun r c => ?_⟩
      · simp only [setEntry, PHYSIKA_ASSERT, h, and_self, decide_True, if_true, hv, if_false,
          hany]
        rfl
      · rw [stored_append]
        have hnew : (⟨row, col, v⟩ : Trituple).isAt r c = decide (r = row ∧ c = col) := by
          simp only [Trituple.isAt]
          exact decide_eq_decide.2
            ⟨fun h => ⟨h.1.symm, h.2.symm⟩, fun h => ⟨h.1.symm, h.2.symm⟩⟩
        by_cases hrc : r = row ∧ c = col
        · obtain ⟨h1, h2⟩ := hrc
          subst h1 h2
          simp [hany, hnew]
        · by_cases hany' : A.elements_.any (fun u => u.isAt r c) = true
          · simp [hany', hrc]
          · have hz : stored A.elements_ r c = 0 := by
              apply stored_of_not_any
              intro t ht htrc
              exact hany' ((any_isAt_iff _ _ _).2 ⟨t, ht, htrc⟩)
            simp [hany', hrc, hnew, hz]

/-- The insertion loop of the test keeps the sparse matrix and the reference
matrix in agreement. -/
theorem setEntries_agree (ops : List (Nat × Nat × Scalar)) (A : SparseMatrix) (B : Reference)
    (hops : ∀ op ∈ ops, op.1 < A.rows_ ∧ op.2.1 < A.cols_)
    (hAB : ∀ r c, stored A.elements_ r c = B r c) :
    ∃ A' B', setEntries ops (A, B) = some (A', B') ∧ A'.rows_ = A.rows_ ∧
      A'.cols_ = A.cols_ ∧ (∀ r c, stored A'.elements_ r c = B' r c) ∧
      ∀ r c, (∀ op ∈ ops, ¬ (op.1 = r ∧ op.2.1 = c)) → B' r c = B r c := by
  induction ops generalizing A B with
  | nil => exact ⟨A, B, rfl, rfl, rfl, hAB, fun _ _ _ => rfl⟩
  | cons op ops ih =>
    obtain ⟨row, col, v⟩ := op
    obtain ⟨A1, h1, hr1, hc1, hs1⟩ :=
      setEntry_spec A row col v (hops (row, col, v) (List.mem_cons_self _ _))
    have hops1 : ∀ op ∈ ops, op.1 < A1.rows_ ∧ op.2.1 < A1.cols_ := by
      intro op hop
      rw [hr1, hc1]
      exact hops op (List.mem_cons_of_mem _ hop)
    have hAB1 : ∀ r c, stored A1.elements_ r c = (B.coeffRef_assign row col v) r c := by
      intro r c
      rw [hs1, Reference.coeffRef_assign, hAB]
    obtain ⟨A', B', h2, hr2, hc2, hs2, hu2⟩ := ih A1 (B.coeffRef_assign row col v) hops1 hAB1
    refine ⟨A', B', ?_, hr2.trans hr1, hc2.trans hc1, hs2, fun r c hun => ?_⟩
    · simp only [setEntries, h1, Option.bind_eq_bind, Option.some_bind]
      exact h2
    · rw [hu2 r c (fun op hop => hun op (List.mem_cons_of_mem _ hop))]
      have := hun (row, col, v) (List.mem_cons_self _ _)
      simp only [Reference.coeffRef_assign]
      rw [if_neg]
      rintro ⟨rfl, rfl⟩
      exact this ⟨rfl, rfl⟩

/-- The reference matrix that the insertion loop of the test delivers is the
one its writes alone produce. -/
theorem setEntries_reference (ops : List (Nat × Nat × Scalar)) (A A' : SparseMatrix)
    (B B' : Reference) (h : setEntries ops (A, B) = some (A', B')) :
    B' = ops.foldl (fun B op => B.coeffRef_assign op.1 op.2.1 op.2.2) B := by
  induction ops generalizing A B with
  | nil =>
    simp only [setEntries, Option.some.injEq, Prod.mk.injEq] at h
    rw [← h.2]
    rfl
  | cons op ops ih =>
    obtain ⟨row, col, v⟩ := op
    cases h1 : A.setEntry row col v with
    | none => simp [setEntries, h1] at h
    | some A1 =>
      simp only [setEntries, h1, Option.bind_eq_bind, Option.some_bind] at h
      rw [List.foldl_cons]
      exact ih A1 (B.coeffRef_assign row col v) h

/-- A sequence of writes leaves a position it never writes as it was. -/
theorem foldl_assign_untouched (ops : List (Nat × Nat × Scalar)) (B : Reference) (r c : Nat)
    (h : ∀ op ∈ ops, ¬ (op.1 = r ∧ op.2.1 = c)) :
    (ops.foldl (fun B op => B.coeffRef_assign op.1 op.2.1 op.2.2) B) r c = B r c := by
  induction ops generalizing B with
  | nil => rfl
  | cons op ops ih =>
    rw [List.foldl_cons, ih _ (fun o ho => h o (List.mem_cons_of_mem _ ho))]
    have := h op (List.mem_cons_self _ _)
    simp only [Reference.coeffRef_assign]
    rw [if_neg]
    rintro ⟨h1, h2⟩
    exact this ⟨h1.symm, h2.symm⟩

/-- After a sequence of writes, a position reads the value of its last write. -/
theorem foldl_assign_last (pre post : List (Nat × Nat × Scalar)) (B : Reference)
    (row col : Nat) (v : Scalar) (h : ∀ op ∈ post, ¬ (op.1 = row ∧ op.2.1 = col)) :
    ((pre ++ (row, col, v) :: post).foldl
      (fun B op => B.coeffRef_assign op.1 op.2.1 op.2.2) B) row col = v := by
  rw [List.foldl_append, List.foldl_cons, foldl_assign_untouched post _ row col h]
  simp [Reference.coeffRef_assign]

/-- C16: for every shape and every sequence of `setEntry(row, col, value)`
calls with coordinates inside the shape, applied to a sparse matrix (empty at
first) and to the dense reference matrix (all zero at first, the last write
wins), every call succeeds; the reference matrix is the one the writes of the
sequence produce; afterwards the sparse matrix reads as the reference matrix
at every position inside the shape; a position that was written reads, in
both, the value of its last write; and a position that was never written
reads as zero. -/
theorem setEntry_matches_reference (rows cols : Nat) (ops : List (Nat × Nat × Scalar))
    (hops : ∀ op ∈ ops, op.1 < rows ∧ op.2.1 < cols) :
    ∃ A B, setEntries ops (create rows cols, Reference.zero) = some (A, B) ∧
      A.rows = rows ∧ A.cols = cols ∧ B = Reference.written ops ∧
      (∀ r c, r < rows → c < cols → A.coeff r c = some (B r c)) ∧
      (∀ pre post row col v, ops = pre ++ (row, col, v) :: post →
        (∀ op ∈ post, ¬ (op.1 = row ∧ op.2.1 = col)) →
        B row col = v ∧ A.coeff row col = some v) ∧
      (∀ r c, r < rows → c < cols → (∀ op ∈ ops, ¬ (op.1 = r ∧ op.2.1 = c)) →
        B r c = 0 ∧ A.coeff r c = some 0) := by
  obtain ⟨A, B, h, hr, hc, hs, hu⟩ :=
    setEntries_agree ops (create rows cols) Reference.zero hops (fun _ _ => rfl)
  have hr' : A.rows_ = rows := hr
  have hc' : A.cols_ = cols := hc
  have hB : B = Reference.written ops := setEntries_reference ops _ A _ B h
  have hread : ∀ r c, r < rows → c < cols → A.coeff r c = some (B r c) := by
    intro r c h1 h2
    rw [coeff_of_inrange A r c (by rw [hr', hc']; exact ⟨h1, h2⟩), hs]
  refine ⟨A, B, h, hr, hc, hB, hread, fun pre post row col v hsplit hpost => ?_,
    fun r c h1 h2 hun => ?_⟩
  · have hin := hops (row, col, v) (by rw [hsplit]; simp)
    have hv : B row col = v := by
      rw [hB, Reference.written, hsplit]
      exact foldl_assign_last pre post Reference.zero row col v hpost
    exact ⟨hv, by rw [hread row col hin.1 hin.2, hv]⟩
  · have hz : B r c = 0 := by
      rw [hu r c hun]
      rfl
    exact ⟨hz, by rw [hread r c h1 h2, hz]⟩

/-- C17: for every sparse matrix and every position `(r, c)` inside its
shape, `remove(r, c)` succeeds, keeps the shape, leaves the position reading
zero and every other position reading as before; and when the position held
no entry the matrix is unchanged. -/
theorem remove_spec (A : SparseMatrix) (r c : Nat) (hr : r < A.rows) (hc : c < A.cols) :
    ∃ A', A.remove r c = some A' ∧ A'.rows = A.rows ∧ A'.cols = A.cols ∧
      A'.coeff r c = some 0 ∧
      (∀ r' c', ¬ (r' = r ∧ c' = c) → A'.coeff r' c' = A.coeff r' c') ∧
      ((∀ t ∈ A.elements_, ¬ (t.row_ = r ∧ t.col_ = c)) → A' = A) := by
  have h : r < A.rows_ ∧ c < A.cols_ := ⟨hr, hc⟩
  refine ⟨{ A with elements_ := A.elements_.filter (fun t => !t.isAt r c) }, ?_, rfl, rfl,
    ?_, fun r' c' hne => ?_, fun habs => ?_⟩
  · simp [remove, PHYSIKA_ASSERT, h]
  · rw [coeff_of_inrange ⟨A.rows_, A.cols_, A.elements_.filter (fun t => !t.isAt r c)⟩ r c h,
      stored_filter]
    simp
  · by_cases hin : r' < A.rows_ ∧ c' < A.cols_
    · rw [coeff_of_inrange ⟨A.rows_, A.cols_, A.elements_.filter (fun t => !t.isAt r c)⟩
        r' c' hin, coeff_of_inrange A r' c' hin, stored_filter, if_neg hne]
    · rw [coeff_of_not_inrange ⟨A.rows_, A.cols_, A.elements_.filter (fun t => !t.isAt r c)⟩
        r' c' hin, coeff_of_not_inrange A r' c' hin]
  · have hf : A.elements_.filter (fun t => !t.isAt r c) = A.elements_ := by
      rw [List.filter_eq_self]
      intro t ht
      have := habs t ht
      simp only [Bool.not_eq_true', ← Bool.not_eq_true, isAt_iff]
      exact this
    rw [hf]

/-- C18: for every sparse matrix `A`, `A.transpose()` has the shape
`cols x rows`, reads at `(c, r)` what `A` reads at `(r, c)` (the reads succeed
inside the shape), has the same number of stored entries, and transposing
twice gives `A` back. -/
theorem transpose_spec (A : SparseMatrix) :
    A.transpose.rows = A.cols ∧ A.transpose.cols = A.rows ∧
      (∀ r c, A.transpose.coeff c r = A.coeff r c) ∧
      (∀ r c, r < A.rows → c < A.cols → (A.coeff r c).isSome) ∧
      A.transpose.nonZeros = A.nonZeros ∧
      A.transpose.transpose = A := by
  refine ⟨rfl, rfl, fun r c => ?_, fun r c hr hc => ?_, ?_, ?_⟩
  · by_cases hin : r < A.rows_ ∧ c < A.cols_
    · rw [coeff_of_inrange A r c hin, coeff_of_inrange A.transpose c r ⟨hin.2, hin.1⟩]
      simp only [transpose, stored_transposed]
    · rw [coeff_of_not_inrange A r c hin,
        coeff_of_not_inrange A.transpose c r (fun h => hin ⟨h.2, h.1⟩)]
  · rw [coeff_of_inrange A r c ⟨hr, hc⟩]
    rfl
  · simp [transpose, nonZeros]
  · have hid : Trituple.transposed ∘ Trituple.transposed = id := by
      funext t
      rfl
    simp [transpose, List.map_map, hid]

end SparseMatrix

namespace SparseMatrix

/-- With one stored entry per position, the storage reads at the position of a
stored entry the value of that entry. -/
theorem stored_of_mem (l : List Trituple)
    (hl : l.Pairwise (fun a b => ¬ (a.row_ = b.row_ ∧ a.col_ = b.col_)))
    (t : Trituple) (ht : t ∈ l) : stored l t.row_ t.col_ = t.value_ := by
  induction l with
  | nil => exact absurd ht (List.not_mem_nil t)
  | cons u l ih =>
    rw [List.pairwise_cons] at hl
    rw [stored_cons]
    rcases List.mem_cons.1 ht with rfl | hmem
    · have : t.isAt t.row_ t.col_ = true := (isAt_iff _ _ _).2 ⟨rfl, rfl⟩
      rw [this]
      rfl
    · have hu : u.isAt t.row_ t.col_ = false := by
        rw [← Bool.not_eq_true, isAt_iff]
        exact hl.1 t hmem
      rw [hu]
      exact ih hl.2 hmem

/-- A position where the storage reads a nonzero value holds a stored entry
with that value. -/
theorem mem_of_stored_ne_zero (l : List Trituple) (r c : Nat) (h : stored l r c ≠ 0) :
    (⟨r, c, stored l r c⟩ : Trituple) ∈ l := by
  induction l with
  | nil => exact absurd rfl h
  | cons u l ih =>
    rw [stored_cons] at h ⊢
    cases hu : u.isAt r c
    · rw [hu] at h
      exact List.mem_cons_of_mem _ (ih h)
    · obtain ⟨h1, h2⟩ := (isAt_iff u r c).1 hu
      subst h1 h2
      exact List.mem_cons_self _ _

/-- The matrix with no stored entry is well formed. -/
theorem create_wellFormed (rows cols : Nat) : (create rows cols).WellFormed :=
  ⟨fun _ h => absurd h (List.not_mem_nil _), List.Pairwise.nil⟩

/-- The function `remove` keeps the invariant of the storage. -/
theorem remove_wellFormed (A A' : SparseMatrix) (row col : Nat) (hA : A.WellFormed)
    (h : A.remove row col = some A') : A'.WellFormed := by
  by_cases hin : row < A.rows_ ∧ col < A.cols_
  · simp only [remove, PHYSIKA_ASSERT, hin, and_self, decide_True, if_true] at h
    have h' : A' = { A with elements_ := A.elements_.filter (fun t => !t.isAt row col) } :=
      (Option.some.inj h).symm
    subst h'
    exact ⟨fun t ht => hA.1 t (List.mem_filter.1 ht).1, hA.2.filter _⟩
  · simp only [remove, PHYSIKA_ASSERT, hin, decide_False] at h
    exact Option.noConfusion h

/-- The function `setEntry` keeps the invariant of the storage. -/
theorem setEntry_wellFormed (A A' : SparseMatrix) (row col : Nat) (v : Scalar)
    (hA : A.WellFormed) (h : A.setEntry row col v = some A') : A'.WellFormed := by
  by_cases hin : row < A.rows_ ∧ col < A.cols_
  · by_cases hv : v = 0
    · simp only [setEntry, PHYSIKA_ASSERT, hin, and_self, decide_True, if_true, hv] at h
      have h' : A' = { A with elements_ := A.elements_.filter (fun t => !t.isAt row col) } :=
        (Option.some.inj h).symm
      subst h'
      exact ⟨fun t ht => hA.1 t (List.mem_filter.1 ht).1, hA.2.filter _⟩
    · by_cases hany : A.elements_.any (fun t => t.isAt row col) = true
      · simp only [setEntry, PHYSIKA_ASSERT, hin, and_self, decide_True, if_true, hv, if_false,
          hany] at h
        have h' : A' = ⟨A.rows_, A.cols_,
            A.elements_.map (fun t => if t.isAt row col then ⟨row, col, v⟩ else t)⟩ :=
          (Option.some.inj h).symm
        subst h'
        have hkey : ∀ t : Trituple,
            (if t.isAt row col then (⟨row, col, v⟩ : Trituple) else t).row_ = t.row_ ∧
            (if t.isAt row col then (⟨row, col, v⟩ : Trituple) else t).col_ = t.col_ := by
          intro t
          cases ht : t.isAt row col
          · exact ⟨rfl, rfl⟩
          · obtain ⟨h1, h2⟩ := (isAt_iff t row col).1 ht
            exact ⟨h1.symm, h2.symm⟩
        refine ⟨fun t ht => ?_, ?_⟩
        · obtain ⟨u, hu, rfl⟩ := List.mem_map.1 ht
          cases hua : u.isAt row col
          · exact hA.1 u hu
          · exact ⟨hin.1, hin.2, hv⟩
        · rw [List.pairwise_map]
          refine hA.2.imp ?_
          intro a b hab
          rw [(hkey a).1, (hkey a).2, (hkey b).1, (hkey b).2]
          exact hab
      · simp only [setEntry, PHYSIKA_ASSERT, hin, and_self, decide_True, if_true, hv, if_false,
          hany] at h
        have h' : A' = { A with elements_ := A.elements_ ++ [⟨row, col, v⟩] } :=
          (Option.some.inj h).symm
        subst h'
        refine ⟨fun t ht => ?_, ?_⟩
        · rcases List.mem_append.1 ht with ht | ht
          · exact hA.1 t ht
          · rw [List.mem_singleton.1 ht]
            exact ⟨hin.1, hin.2, hv⟩
        · rw [List.pairwise_append]
          refine ⟨hA.2, List.pairwise_singleton _ _, ?_⟩
          intro a ha b hb
          rw [List.mem_singleton.1 hb]
          intro hk
          exact hany ((any_isAt_iff _ _ _).2 ⟨a, ha, hk⟩)
  · simp only [setEntry, PHYSIKA_ASSERT, hin, decide_False] at h
    exact Option.noConfusion h

/-- The function `transpose` keeps the invariant of the storage. -/
theorem transpose_wellFormed (A : SparseMatrix) (hA : A.WellFormed) :
    A.transpose.WellFormed := by
  refine ⟨fun t ht => ?_, ?_⟩
  · obtain ⟨u, hu, rfl⟩ := List.mem_map.1 ht
    obtain ⟨h1, h2, h3⟩ := hA.1 u hu
    exact ⟨h2, h1, h3⟩
  · show (A.elements_.map Trituple.transposed).Pairwise _
    rw [List.pairwise_map]
    exact hA.2.imp (fun hab h => hab ⟨h.2, h.1⟩)

end SparseMatrix

namespace SparseMatrixIterator

/-- The iteration loop of the test, run on an iterator with the entries `l`
remaining and enough fuel, appends exactly `l`, in order, to the vector. -/
theorem collect_remaining (l : List Trituple) (fuel : Nat) (iterator_v : List Trituple)
    (h : l.length ≤ fuel) : collect fuel ⟨l⟩ iterator_v = some (iterator_v ++ l) := by
  induction l generalizing fuel iterator_v with
  | nil => cases fuel <;> simp [collect, live]
  | cons t l ih =>
    cases fuel with
    | zero => exact absurd h (by simp)
    | succ fuel =>
      have hl : l.length ≤ fuel := Nat.le_of_succ_le_succ h
      have := ih fuel (iterator_v ++ [t]) hl
      simp only [collect, live, row, col, value, next, List.isEmpty_cons, Bool.not_false,
        if_true, List.head?_cons, Option.map_some', Option.bind_eq_bind, Option.some_bind,
        List.tail_cons]
      rw [this]
      simp

end SparseMatrixIterator

namespace SparseMatrix

/-- C19: for every well-formed sparse matrix `A` and every row `i < A.rows()`,
`getRowElements(i)` succeeds with a sequence `l`; the iterator constructed on
`(A, i)` is constructed, and the loop that collects `(row, col, value)` until
the iterator is inert ends (with any fuel of at least the length of `l`) with
exactly `l`, in the same order; `l` is strictly increasing in the column; and
the entries of `l` are exactly the triples `(i, c, v)` with `c` inside the
shape, `v` nonzero and `A(i, c) == v`. -/
theorem iterator_yields_row_elements (A : SparseMatrix) (hA : A.WellFormed) (i : Nat)
    (hi : i < A.rows) :
    ∃ l it, A.getRowElements i = some l ∧ SparseMatrixIterator.create A i = some it ∧
      (∀ fuel, l.length ≤ fuel → SparseMatrixIterator.collect fuel it [] = some l) ∧
      l.Sorted (fun a b => a.col_ < b.col_) ∧
      ∀ t, t ∈ l ↔
        (t.row_ = i ∧ t.col_ < A.cols ∧ t.value_ ≠ 0 ∧ A.coeff i t.col_ = some t.value_) := by
  have hi' : i < A.rows_ := hi
  have hget : A.getRowElements i =
      some ((A.elements_.filter (fun t => decide (t.row_ = i))).insertionSort
        (fun a b => a.col_ ≤ b.col_)) := by
    simp [getRowElements, PHYSIKA_ASSERT, hi']
  have hmem : ∀ t, t ∈ (A.elements_.filter (fun t => decide (t.row_ = i))).insertionSort
      (fun a b => a.col_ ≤ b.col_) ↔ t ∈ A.elements_ ∧ t.row_ = i := by
    intro t
    rw [List.mem_insertionSort, List.mem_filter, decide_eq_true_eq]
  refine ⟨_, ⟨(A.elements_.filter (fun t => decide (t.row_ = i))).insertionSort
    (fun a b => a.col_ ≤ b.col_)⟩, hget, ?_, fun fuel hf => ?_, ?_, fun t => ?_⟩
  · simp [SparseMatrixIterator.create, hget]
  · have := SparseMatrixIterator.collect_remaining _ fuel [] hf
    simpa using this
  · haveI : IsTotal Trituple (fun a b => a.col_ ≤ b.col_) := ⟨fun a b => Nat.le_total _ _⟩
    haveI : IsTrans Trituple (fun a b => a.col_ ≤ b.col_) := ⟨fun _ _ _ h1 h2 => Nat.le_trans h1 h2⟩
    have hs : ((A.elements_.filter (fun t => decide (t.row_ = i))).insertionSort
        (fun a b => a.col_ ≤ b.col_)).Pairwise (fun a b => a.col_ ≤ b.col_) :=
      List.sorted_insertionSort _ _
    have hp : ((A.elements_.filter (fun t => decide (t.row_ = i))).insertionSort
        (fun a b => a.col_ ≤ b.col_)).Pairwise
          (fun a b => ¬ (a.row_ = b.row_ ∧ a.col_ = b.col_)) := by
      refine ((List.perm_insertionSort _ _).pairwise_iff ?_).2 (hA.2.filter _)
      intro a b hab h
      exact hab ⟨h.1.symm, h.2.symm⟩
    show List.Pairwise _ _
    rw [List.pairwise_iff_forall_sublist] at hs hp ⊢
    intro a b hab
    have h1 := hs hab
    have h2 := hp hab
    have ha : a.row_ = i := ((hmem a).1 (hab.subset (by simp))).2
    have hb : b.row_ = i := ((hmem b).1 (hab.subset (by simp))).2
    exact lt_of_le_of_ne h1 (fun hc => h2 ⟨ha.trans hb.symm, hc⟩)
  · rw [hmem]
    constructor
    · rintro ⟨ht, hrow⟩
      obtain ⟨h1, h2, h3⟩ := hA.1 t ht
      refine ⟨hrow, h2, h3, ?_⟩
      rw [coeff_of_inrange A i t.col_ ⟨hi', h2⟩, ← hrow, stored_of_mem _ hA.2 t ht]
    · rintro ⟨hrow, hcol, hv, hco⟩
      rw [coeff_of_inrange A i t.col_ ⟨hi', hcol⟩] at hco
      have hst : stored A.elements_ i t.col_ = t.value_ := Option.some.inj hco
      have := mem_of_stored_ne_zero A.elements_ i t.col_ (by rw [hst]; exact hv)
      rw [hst, ← hrow] at this
      exact ⟨this, hrow⟩

end SparseMatrix

namespace SparseMatrix

/-- C16 on a 2 x 3 matrix, with three calls of which the last overwrites the
first: `(0, 0)` reads the last written value 5, `(1, 2)` reads 2, and `(1, 1)`,
never written, reads 0. -/
theorem setEntry_matches_reference_witness :
    (∀ op ∈ [((0 : Nat), (0 : Nat), (1 : Scalar)), (1, 2, 2), (0, 0, 5)],
        op.1 < 2 ∧ op.2.1 < 3) ∧
      ∃ A B, setEntries [((0 : Nat), (0 : Nat), (1 : Scalar)), (1, 2, 2), (0, 0, 5)]
          (create 2 3, Reference.zero) = some (A, B) ∧
        A.rows = 2 ∧ A.cols = 3 ∧
        (B 0 0 = 5 ∧ A.coeff 0 0 = some 5) ∧ (B 1 2 = 2 ∧ A.coeff 1 2 = some 2) ∧
        (B 1 1 = 0 ∧ A.coeff 1 1 = some 0) := by
  obtain ⟨A, B, h, hr, hc, _, _, hlast, hzero⟩ :=
    setEntry_matches_reference 2 3
      [((0 : Nat), (0 : Nat), (1 : Scalar)), (1, 2, 2), (0, 0, 5)] (by decide)
  exact ⟨by decide, A, B, h, hr, hc,
    hlast [(0, 0, 1), (1, 2, 2)] [] 0 0 5 rfl (by simp),
    hlast [(0, 0, 1)] [(0, 0, 5)] 1 2 2 rfl (by simp),
    hzero 1 1 (by decide) (by decide) (by simp)⟩

/-- C17 on the 3 x 4 example matrix, at the stored position `(1, 3)`. -/
theorem remove_spec_witness :
    (1 < sparse3x4.rows ∧ 3 < sparse3x4.cols) ∧
      ∃ A', sparse3x4.remove 1 3 = some A' ∧ A'.rows = sparse3x4.rows ∧
        A'.cols = sparse3x4.cols ∧ A'.coeff 1 3 = some 0 ∧
        (∀ r' c', ¬ (r' = 1 ∧ c' = 3) → A'.coeff r' c' = sparse3x4.coeff r' c') ∧
        ((∀ t ∈ sparse3x4.elements_, ¬ (t.row_ = 1 ∧ t.col_ = 3)) → A' = sparse3x4) :=
  ⟨by decide, remove_spec sparse3x4 1 3 (by decide) (by decide)⟩

/-- C18 on the 3 x 4 example matrix, read at `(1, 3)`. -/
theorem transpose_spec_witness :
    (1 < sparse3x4.rows ∧ 3 < sparse3x4.cols) ∧ (sparse3x4.coeff 1 3).isSome ∧
      sparse3x4.transpose.coeff 3 1 = sparse3x4.coeff 1 3 ∧
      sparse3x4.transpose.transpose = sparse3x4 :=
  ⟨by decide, (transpose_spec sparse3x4).2.2.2.1 1 3 (by decide) (by decide),
    (transpose_spec sparse3x4).2.2.1 1 3, (transpose_spec sparse3x4).2.2.2.2.2⟩

/-- C19 on row 1 of the 3 x 4 example matrix. -/
theorem iterator_yields_row_elements_witness :
    sparse3x4.WellFormed ∧ 1 < sparse3x4.rows ∧
      ∃ l it, sparse3x4.getRowElements 1 = some l ∧
        SparseMatrixIterator.create sparse3x4 1 = some it ∧
        (∀ fuel, l.length ≤ fuel → SparseMatrixIterator.collect fuel it [] = some l) ∧
        l.Sorted (fun a b => a.col_ < b.col_) ∧
        ∀ t, t ∈ l ↔ (t.row_ = 1 ∧ t.col_ < sparse3x4.cols ∧ t.value_ ≠ 0 ∧
          sparse3x4.coeff 1 t.col_ = some t.value_) :=
  ⟨by unfold WellFormed sparse3x4; decide, by decide,
    iterator_yields_row_elements sparse3x4 (by unfold WellFormed sparse3x4; decide) 1
      (by decide)⟩

end SparseMatrix

namespace MPMSolid

/-- C20 on a collection of four particles: index 7 is out of range, index 1 is
removed. -/
theorem removeParticle_shifts_witness :
    ((MPMSolid.mk [10, 20, 30, 40]).particleNum ≤ 7 ∧
      (MPMSolid.mk [10, 20, 30, 40]).removeParticle 7 = none) ∧
    (1 < (MPMSolid.mk [10, 20, 30, 40]).particleNum ∧
      ∃ d', (MPMSolid.mk [10, 20, 30, 40]).removeParticle 1 = some d' ∧
        d'.particleNum = (MPMSolid.mk [10, 20, 30, 40]).particleNum - 1 ∧
        (∀ j, j < 1 → d'.particle j = (MPMSolid.mk [10, 20, 30, 40]).particle j ∧
          ((MPMSolid.mk [10, 20, 30, 40]).particle j).isSome) ∧
        (∀ j, 1 ≤ j → j < (MPMSolid.mk [10, 20, 30, 40]).particleNum - 1 →
          d'.particle j = (MPMSolid.mk [10, 20, 30, 40]).particle (j + 1) ∧
          ((MPMSolid.mk [10, 20, 30, 40]).particle (j + 1)).isSome)) :=
  ⟨⟨by decide, (removeParticle_shifts (MPMSolid.mk [10, 20, 30, 40]) 7).1 (by decide)⟩,
    ⟨by decide, (removeParticle_shifts (MPMSolid.mk [10, 20, 30, 40]) 1).2 (by decide)⟩⟩

end MPMSolid


namespace Vector

variable {Dim : Nat}

/-- `operator==` returns true exactly on equal vectors. -/
theorem eq_iff {T : Type} [DecidableEq T] (a b : Vector T Dim) : a.eq b = true ↔ a = b := by
  simp only [eq, List.all_eq_true, decide_eq_true_eq]
  constructor
  · intro h
    ext i
    exact h i (List.mem_finRange i)
  · intro h i _
    rw [h]

/-- `operator/=` computes what `operator/` computes. -/
theorem div_assign_eq_div (eps : Scalar) (a : Vector Scalar Dim) (s : Scalar) :
    a.div_assign eps s = a.div eps s := rfl

/-- C21: for every vector `a` and scalar `s`, with the epsilon of the scalar
type nonnegative, `a / s` and `a /= s` fail exactly when `|s| <= epsilon`;
when they succeed each component of the result is `a[i] / s`; and for
`|s| > epsilon`, `(a * s) / s` succeeds and `(a * s) / s == a`. -/
theorem div_fails_iff (eps : Scalar) (heps : 0 ≤ eps) (a : Vector Scalar Dim) (s : Scalar) :
    (a.div eps s = none ↔ |s| ≤ eps) ∧
    (a.div_assign eps s = none ↔ |s| ≤ eps) ∧
    (∀ r, a.div eps s = some r → ∀ i, r.data_ i = a.data_ i / s) ∧
    (∀ r, a.div_assign eps s = some r → ∀ i, r.data_ i = a.data_ i / s) ∧
    (eps < |s| → ∃ r, (a.mul s).div eps s = some r ∧ r.eq a = true ∧ r = a) := by
  have hfail : a.div eps s = none ↔ |s| ≤ eps := by
    constructor
    · intro h
      by_contra hc
      rw [div_of_gt eps a s (not_le.1 hc)] at h
      exact Option.noConfusion h
    · exact div_of_le eps a s
  have hval : ∀ r, a.div eps s = some r → ∀ i, r.data_ i = a.data_ i / s := by
    intro r hr i
    rcases le_or_lt |s| eps with hle | hlt
    · rw [div_of_le eps a s hle] at hr
      exact Option.noConfusion hr
    · rw [div_of_gt eps a s hlt] at hr
      rw [← Option.some.inj hr]
  refine ⟨hfail, hfail, hval, hval, fun hs => ?_⟩
  have hs0 : s ≠ 0 := by
    intro h0
    rw [h0, abs_zero] at hs
    exact absurd hs (not_lt.2 heps)
  have hr : (⟨fun i => (a.mul s).data_ i / s⟩ : Vector Scalar Dim) = a := by
    ext i
    simp only [mul]
    exact mul_div_cancel_right₀ _ hs0
  refine ⟨_, div_of_gt eps (a.mul s) s hs, ?_, hr⟩
  rw [eq_iff]
  exact hr

/-- C21 at the vector `(1, 2, 3)` and the scalar `4`, with the epsilon of
`float`. -/
theorem div_fails_iff_witness :
    (0 : Scalar) ≤ epsilon_float ∧ epsilon_float < |(4 : Scalar)| ∧
      ∃ r, ((xyz 1 2 3 : Vector Scalar 3).mul 4).div epsilon_float 4 = some r ∧
        r.eq (xyz 1 2 3) = true ∧ r = xyz 1 2 3 :=
  ⟨by norm_num [epsilon_float], by norm_num [epsilon_float],
    (div_fails_iff epsilon_float (by norm_num [epsilon_float]) (xyz 1 2 3) 4).2.2.2.2
      (by norm_num [epsilon_float])⟩

/-- C25: for all 3D vectors `a` and `b` over a commutative ring,
`a.cross(b) == -(b.cross(a))`, `a.dot(a.cross(b)) == 0` and
`b.dot(a.cross(b)) == 0`. -/
theorem cross_antisymm_orthogonal {T : Type} [CommRing T] (a b : Vector T 3) :
    a.cross b = (b.cross a).neg ∧ a.dot (a.cross b) = 0 ∧ b.dot (a.cross b) = 0 := by
  refine ⟨?_, ?_, ?_⟩
  · ext i
    fin_cases i <;> simp [cross, neg, xyz] <;> ring
  · simp [dot, cross, xyz]
    ring
  · simp [dot, cross, xyz]
    ring

end Vector

namespace GridBase

variable {Dim : Nat}

/-- The single-count constructor never delivers a grid for the count zero:
when it succeeds, the divisor of `edgeLengths()/cell_num` is positive. -/
theorem GridBase_int_count_pos (eps : Scalar) (heps : 0 ≤ eps) (domain : Range Dim) (n : ℤ)
    (g : GridBase Dim) (h : GridBase_int eps domain n = some g) : 0 < n := by
  rcases lt_trichotomy n 0 with hn | hn | hn
  · rw [GridBase_int_of_neg eps domain n hn] at h
    exact Option.noConfusion h
  · subst hn
    rw [GridBase_int_of_nonneg eps domain 0 (le_refl 0),
      Vector.div_of_le eps _ _ (by simpa using heps)] at h
    exact Option.noConfusion h
  · exact hn

/-- C22: the code at a failing input.  The per-axis constructor accepts the
cell counts `(10, 0)` over the unit square (both pass `cell_num[i]>=0`) and
returns a grid whose `cellNum()[1]` is zero and whose `dX()[1]` is the
quotient of the edge length by that zero. -/
theorem per_axis_zero_count_divides_by_zero :
    ∃ g, GridBase_vec unitSquare ⟨![10, 0]⟩ = some g ∧ g.cellNum = ⟨![10, 0]⟩ ∧
      g.cellNum.data_ 1 = 0 ∧
      g.dX.data_ 1 = g.domain.edgeLengths.data_ 1 / ((0 : ℤ) : Scalar) :=
  ⟨_, GridBase_vec_of_nonneg unitSquare ⟨![10, 0]⟩ (by decide), rfl, rfl, rfl⟩

end GridBase

namespace ArrayNDIterator

variable {ElementType : Type}

/-- Storing a stored value changes nothing. -/
theorem store_store (k : IndexType) (z : ℤ) : k.store (k.store z) = k.store z := by
  cases k
  · rfl
  · simp only [IndexType.store]
    omega

/-- Storing the sum of a stored value and `w` is storing the sum. -/
theorem store_add_store (k : IndexType) (z w : ℤ) : k.store (k.store z + w) = k.store (z + w) := by
  cases k
  · rfl
  · simp only [IndexType.store]
    omega

/-- The dereference of a bound iterator, case by case. -/
theorem deref_bound (k : IndexType) (a : ArrayND ElementType) (idx : ℤ) :
    (a.totalElementCount ≤ k.store idx →
      deref k ⟨some a, idx⟩ = Dereference.exit_failure) ∧
    (k.store idx < 0 → deref k ⟨some a, idx⟩ = Dereference.out_of_bounds) ∧
    (0 ≤ k.store idx → k.store idx < a.totalElementCount →
      ∃ e, a.data_[(k.store idx).toNat]? = some e ∧
        deref k ⟨some a, idx⟩ = Dereference.element e) := by
  refine ⟨fun h => ?_, fun h => ?_, fun h0 h1 => ?_⟩
  · simp only [deref, ge_iff_le, if_pos h]
  · have hlt : ¬ a.totalElementCount ≤ k.store idx := by
      have : (0 : ℤ) ≤ a.totalElementCount := Int.natCast_nonneg _
      omega
    simp only [deref, ge_iff_le, if_neg hlt, if_pos h]
  · have hlen : (k.store idx).toNat < a.data_.length := by
      have : k.store idx < (a.data_.length : ℤ) := h1
      omega
    refine ⟨a.data_[(k.store idx).toNat], List.getElem?_eq_getElem hlen, ?_⟩
    simp only [deref, ge_iff_le, if_neg (not_le.2 h1), if_neg (not_lt.2 h0),
      List.getElem?_eq_getElem hlen]

end ArrayNDIterator

namespace ArrayNDIterator

variable {ElementType : Type}

/-- The reading in which `element_idx_` and `totalElementCount()` are both
`int`: the iterator at index 0 of an array of three elements, moved before the
first element by `operator--` (or by `operator-` with stride 1), holds the
index `-1`; its dereference does not end the process, it passes the only range
check and reads `data_[-1]`, outside the bounds of the array. -/
theorem deref_before_first_signed :
    ∃ it, preDecrement IndexType.signed_int (⟨some array3, 0⟩ : ArrayNDIterator Nat) = some it ∧
      minus IndexType.signed_int (⟨some array3, 0⟩ : ArrayNDIterator Nat) 1 = some it ∧
      it.element_idx_ = -1 ∧
      deref IndexType.signed_int it ≠ Dereference.exit_failure ∧
      deref IndexType.signed_int it = Dereference.out_of_bounds := by
  refine ⟨⟨some array3, -1⟩, by simp [preDecrement, IndexType.store],
    by simp [minus, IndexType.store], rfl, ?_, ?_⟩
  · rw [(deref_bound IndexType.signed_int array3 (-1)).2.1 (by decide)]
    exact fun h => Dereference.noConfusion h
  · exact (deref_bound IndexType.signed_int array3 (-1)).2.1 (by decide)

/-- The prefix increment applied `n` times to a bound iterator adds `n` to the
index. -/
theorem preIncrement_times_bound (k : IndexType) (a : ArrayND ElementType) (n : Nat)
    (idx : ℤ) (hidx : k.store idx = idx) :
    preIncrement_times k n ⟨some a, idx⟩ = some ⟨some a, k.store (idx + n)⟩ := by
  induction n generalizing idx with
  | zero => simp [preIncrement_times, hidx]
  | succ n ih =>
    have hstep : preIncrement k (⟨some a, idx⟩ : ArrayNDIterator ElementType) =
        some ⟨some a, k.store (idx + 1)⟩ := rfl
    rw [preIncrement_times, hstep, Option.some_bind, ih (k.store (idx + 1)) (store_store k _),
      store_add_store]
    congr 3
    push_cast
    ring

/-- C24: for every bound iterator `it` (holding an index of its integer type)
and every stride `n >= 0`: `it + n` is the result of `n` prefix increments;
`(it + n) - n == it`; `--(++it) == it`; and each of these operations keeps the
pointer to the array and changes the element index only. -/
theorem plus_minus_increment (k : IndexType) (a : ArrayND ElementType) (idx : ℤ)
    (hidx : k.store idx = idx) (n : Nat) :
    ∃ p m i d, plus k ⟨some a, idx⟩ n = some p ∧
      preIncrement_times k n ⟨some a, idx⟩ = some p ∧
      minus k p n = some m ∧ m.eq ⟨some a, idx⟩ = some true ∧ m = ⟨some a, idx⟩ ∧
      preIncrement k ⟨some a, idx⟩ = some i ∧ preDecrement k i = some d ∧
      d.eq ⟨some a, idx⟩ = some true ∧ d = ⟨some a, idx⟩ ∧
      p.array_ = some a ∧ m.array_ = some a ∧ i.array_ = some a ∧ d.array_ = some a := by
  have hm : k.store (k.store (idx + n) - n) = idx := by
    have := store_add_store k (idx + n) (-(n : ℤ))
    rw [← sub_eq_add_neg, ← sub_eq_add_neg, add_sub_cancel_right, hidx] at this
    exact this
  have hd : k.store (k.store (idx + 1) - 1) = idx := by
    have := store_add_store k (idx + 1) (-1)
    rw [← sub_eq_add_neg, ← sub_eq_add_neg, add_sub_cancel_right, hidx] at this
    exact this
  refine ⟨⟨some a, k.store (idx + n)⟩, ⟨some a, idx⟩, ⟨some a, k.store (idx + 1)⟩,
    ⟨some a, idx⟩, rfl, preIncrement_times_bound k a n idx hidx, ?_, ?_, rfl, rfl, ?_, ?_,
    rfl, rfl, rfl, rfl, rfl⟩
  · simp only [minus, hm]
  · simp [eq, same_array]
  · simp only [preDecrement, hd]
  · simp [eq, same_array]

/-- C24 on the array of three elements, from index 1 with stride 2, with the
unsigned index. -/
theorem plus_minus_increment_witness :
    IndexType.unsigned_int.store 1 = 1 ∧
      ∃ p m i d, plus IndexType.unsigned_int (⟨some array3, 1⟩ : ArrayNDIterator Nat)
          ((2 : Nat) : ℤ) = some p ∧
        preIncrement_times IndexType.unsigned_int 2 ⟨some array3, 1⟩ = some p ∧
        minus IndexType.unsigned_int p ((2 : Nat) : ℤ) = some m ∧
        m.eq ⟨some array3, 1⟩ = some true ∧ m = ⟨some array3, 1⟩ ∧
        preIncrement IndexType.unsigned_int ⟨some array3, 1⟩ = some i ∧
        preDecrement IndexType.unsigned_int i = some d ∧
        d.eq ⟨some array3, 1⟩ = some true ∧ d = ⟨some array3, 1⟩ ∧
        p.array_ = some array3 ∧ m.array_ = some array3 ∧ i.array_ = some array3 ∧
        d.array_ = some array3 :=
  ⟨by decide, plus_minus_increment IndexType.unsigned_int array3 1 (by decide) 2⟩

end ArrayNDIterator


end Physika
